import Mathlib

/-!
# Verification of the `matlab-formatter` line-classification and re-emission engine

This file is a shallow embedding, in Lean 4, of the Go package `internal/formatter`
of the `matlab-formatter` repository (the single-pass MATLAB pretty-printer), and
a development of theorems about that embedding.

Modelling choices:

* Lines are modelled as `List Char`.  `readLines` splits the input on line
  terminators, so a line never contains `'\n'`; the embedding is faithful for
  such lines.
* Go regular expressions (`regexp.MustCompile`, Perl/leftmost-first semantics)
  are modelled by a small backtracking matcher `Re.mrun` over a regex syntax
  tree `Re`.  Each pattern of the source is transcribed node by node into a
  `Re` value carrying the same capture-group numbering.  All patterns of the
  source are anchored at the start and (for `'\n'`-free input) necessarily
  extend to the end of the subject, so `Re.reMatch` demands a full match.
* Go `int` fields of the `Formatter` state are modelled as `Int`
  (`strconv.Atoi` overflow is modelled by the explicit `2^63 - 1` bound);
  the `operatorSep float64` field only ever holds `0.0`, `0.5` or `1.0` and is
  compared against `0` and `0.5`, so it is modelled exactly by a `Nat` counting
  half-steps (`0`, `1`, `2`).
* The `isComment` field of the Go struct is written by
  `extractStringOrComment` and `formatLine` but never read anywhere in the
  package; the embedding keeps the field and the write in `formatLine`, and
  models the extractor as a pure function.
* The recursive `format` and `cleanLineFromStringsAndComments` functions are
  defined by fuel recursion (`formatF`, `cleanF`) with an explicit fuel that is
  proved sufficient (see the termination theorems): with enough fuel the
  unfolding is exactly the Go recursion.
-/

namespace MatlabFmt

/-- Character classes of Go's regexp syntax (`\s`, `\S`, `\w`, `\W`, `\d`, `.`),
as used with the default (non-Unicode-class) escapes on ASCII input. -/
def isWs (c : Char) : Bool :=
  c == ' ' || c == '\t' || c == '\n' || c == '\x0c' || c == '\r'

def isNonWs (c : Char) : Bool := !isWs c

def isWordC (c : Char) : Bool := c.isAlphanum || c == '_'

def isNonWord (c : Char) : Bool := !isWordC c

def isDot (c : Char) : Bool := c != '\n'

/-- Regex syntax tree: empty string, character class, concatenation,
alternation (first alternative preferred), greedy star, lazy star,
greedy option, and numbered capture group. -/
inductive Re where
  | emp : Re
  | chP (p : Char → Bool) : Re
  | cat (a b : Re) : Re
  | alt (a b : Re) : Re
  | starG (a : Re) : Re
  | starL (a : Re) : Re
  | optG (a : Re) : Re
  | grp (i : Nat) (a : Re) : Re

/-- Capture environment: group index paired with captured characters;
the most recent binding of a group comes first. -/
abbrev Caps : Type := List (Nat × List Char)

/-- Backtracking matcher in continuation-passing style, implementing
leftmost-first (Perl-style) alternation and greedy/lazy repetition, as in Go's
`regexp` package.  The fuel bounds the number of star unfoldings; every star
body in the transcribed patterns consumes at least one character, so fuel
`s.length + 1` is exact for them. -/
def Re.mrun : Nat → Re → List Char → Caps → (List Char → Caps → Option Caps) → Option Caps
  | 0, _, _, _, _ => none
  | fuel + 1, re, s, caps, k =>
    match re with
    | .emp => k s caps
    | .chP p =>
      match s with
      | [] => none
      | c :: s' => if p c then k s' caps else none
    | .cat a b => Re.mrun fuel a s caps (fun s' c' => Re.mrun fuel b s' c' k)
    | .alt a b =>
      match Re.mrun fuel a s caps k with
      | some r => some r
      | none => Re.mrun fuel b s caps k
    | .starG a =>
      match Re.mrun fuel a s caps (fun s' c' => Re.mrun fuel (.starG a) s' c' k) with
      | some r => some r
      | none => k s caps
    | .starL a =>
      match k s caps with
      | some r => some r
      | none => Re.mrun fuel a s caps (fun s' c' => Re.mrun fuel (.starL a) s' c' k)
    | .optG a =>
      match Re.mrun fuel a s caps k with
      | some r => some r
      | none => k s caps
    | .grp i a =>
      Re.mrun fuel a s caps (fun s' c' => k s' ((i, s.take (s.length - s'.length)) :: c'))

/-- Node count of a pattern, used to size the matcher fuel. -/
def Re.size : Re → Nat
  | .emp => 1
  | .chP _ => 1
  | .cat a b => a.size + b.size + 1
  | .alt a b => a.size + b.size + 1
  | .starG a => a.size + 1
  | .starL a => a.size + 1
  | .optG a => a.size + 1
  | .grp _ a => a.size + 1

/-- Full match of a pattern against a whole line, returning the capture
environment of the first (Perl-order) match.  The fuel bounds the depth of
the call chain; `(size + 2) * (length + 2)` is ample for the transcribed
patterns, whose stars are never nested inside one another. -/
def Re.reMatch (re : Re) (s : List Char) : Option Caps :=
  Re.mrun ((re.size + 2) * (s.length + 2)) re s [] (fun s' c => if s' = [] then some c else none)

/-- `MatchString`. -/
def Re.test (re : Re) (s : List Char) : Bool := (re.reMatch s).isSome

/-- Group lookup; Go's `FindStringSubmatch` yields `""` for a group that did
not participate in the match. -/
def getG (caps : Caps) (i : Nat) : List Char :=
  match List.find? (fun p => p.1 == i) caps with
  | some p => p.2
  | none => []

/-- Concatenation of a list of regexes. -/
def rCat (l : List Re) : Re := l.foldr .cat .emp

/-- Ordered alternation of a list of regexes. -/
def altList : List Re → Re
  | [] => .chP (fun _ => false)
  | [r] => r
  | r :: rest => .alt r (altList rest)

/-- A literal string. -/
def lit (s : List Char) : Re :=
  s.foldr (fun c r => .cat (.chP (fun x => x == c)) r) .emp

def wsS : Re := .starG (.chP isWs)

def wsP : Re := .cat (.chP isWs) wsS

def dotS : Re := .starG (.chP isDot)

def dotLz : Re := .starL (.chP isDot)

def digS : Re := .starG (.chP Char.isDigit)

def digP : Re := .cat (.chP Char.isDigit) digS

/-- `(.*?X|^)` as capture group `i` — the lazy prefix ending in class `X`,
or empty. -/
def lazyPre (i : Nat) (p : Char → Bool) : Re :=
  .grp i (.alt (.cat dotLz (.chP p)) .emp)

/-- `(\S.*|$)` as capture group `i`. -/
def restNB (i : Nat) : Re :=
  .grp i (.alt (.cat (.chP isNonWs) dotS) .emp)

/-- `(\W\s*\S.*|\s*$)` — the tail group of the control-keyword patterns. -/
def kwTail (i : Nat) : Re :=
  .grp i (.alt (rCat [.chP isNonWord, wsS, .chP isNonWs, dotS]) wsS)

/-- `(\s+\S.*|\s*$)` — the tail group of the `end`-family patterns. -/
def endTail (i : Nat) : Re :=
  .grp i (.alt (rCat [wsP, .chP isNonWs, dotS]) wsS)

def memC (l : List Char) (c : Char) : Bool := l.contains c

/-- `^(\s*)(if|while|for|try)(\W\s*\S.*\W)((end|endif|endwhile|endfor);?)(\s+\S.*|\s*$)` -/
def ctrl1Line : Re := rCat
  [ .grp 1 wsS
  , .grp 2 (altList [lit "if".data, lit "while".data, lit "for".data, lit "try".data])
  , .grp 3 (rCat [.chP isNonWord, wsS, .chP isNonWs, dotS, .chP isNonWord])
  , .grp 4 (.cat (.grp 5 (altList [lit "end".data, lit "endif".data, lit "endwhile".data,
      lit "endfor".data])) (.optG (.chP (fun c => c == ';'))))
  , endTail 6 ]

/-- `^(\s*)(function|classdef)\s*(\W\s*\S.*|\s*$)` -/
def fcnStart : Re := rCat
  [ .grp 1 wsS
  , .grp 2 (altList [lit "function".data, lit "classdef".data])
  , wsS
  , kwTail 3 ]

/-- `^(\s*)(if|while|for|parfor|try|methods|properties|events|arguments|enumeration|spmd)\s*(\W\s*\S.*|\s*$)` -/
def ctrlStart : Re := rCat
  [ .grp 1 wsS
  , .grp 2 (altList [lit "if".data, lit "while".data, lit "for".data, lit "parfor".data,
      lit "try".data, lit "methods".data, lit "properties".data, lit "events".data,
      lit "arguments".data, lit "enumeration".data, lit "spmd".data])
  , wsS
  , kwTail 3 ]

/-- `^(\s*)(import|clear|clearvars)(.*$)` -/
def ctrlIgnore : Re := rCat
  [ .grp 1 wsS
  , .grp 2 (altList [lit "import".data, lit "clear".data, lit "clearvars".data])
  , .grp 3 dotS ]

/-- `^(\s*)(switch)\s*(\W\s*\S.*|\s*$)` -/
def ctrlStartSwitch : Re := rCat
  [ .grp 1 wsS, .grp 2 (lit "switch".data), wsS, kwTail 3 ]

/-- `^(\s*)(elseif|else|case|otherwise|catch)\s*(\W\s*\S.*|\s*$)` -/
def ctrlCont : Re := rCat
  [ .grp 1 wsS
  , .grp 2 (altList [lit "elseif".data, lit "else".data, lit "case".data,
      lit "otherwise".data, lit "catch".data])
  , wsS
  , kwTail 3 ]

/-- `^(\s*)((end|endfunction|endif|endwhile|endfor|endswitch);?)(\s+\S.*|\s*$)` -/
def ctrlEnd : Re := rCat
  [ .grp 1 wsS
  , .grp 2 (.cat (.grp 3 (altList [lit "end".data, lit "endfunction".data, lit "endif".data,
      lit "endwhile".data, lit "endfor".data, lit "endswitch".data]))
      (.optG (.chP (fun c => c == ';'))))
  , endTail 4 ]

/-- `^(\s*)%.*$` -/
def lineComment : Re := rCat [.grp 1 wsS, .chP (fun c => c == '%'), dotS]

/-- `^.*\.\.\..*$` -/
def ellipsis : Re := rCat [dotS, lit "...".data, dotS]

/-- `^(\s*)%\{\s*$` -/
def blockCommentOpen : Re := rCat
  [.grp 1 wsS, .chP (fun c => c == '%'), .chP (fun c => c == '\x7b'), wsS]

/-- `^(\s*)%\}\s*$` -/
def blockCommentClose : Re := rCat
  [.grp 1 wsS, .chP (fun c => c == '%'), .chP (fun c => c == '\x7d'), wsS]

/-- `^\s*[\)\]\}].*$` -/
def blockClose : Re := rCat
  [wsS, .chP (memC [')', ']', '\x7d']), dotS]

/-- `^.*formatter\s+ignore\s+(\d*).*$` -/
def ignoreCommand : Re := rCat
  [dotS, lit "formatter".data, wsP, lit "ignore".data, wsP, .grp 1 digS, dotS]

/-- The delimiter class `[\(\[\{,;=\+\-\*\/\|\&\s]` of the string patterns. -/
def strDelim (c : Char) : Bool :=
  memC ['(', '[', '\x7b', ',', ';', '=', '+', '-', '*', '/', '|', '&'] c || isWs c

/-- `^(.*?[\(\[\{,;=\+\-\*\/\|\&\s]|^)\s*(\'([^\']|\'\')+\')([\)\}\]\+\-\*\/=\|\&,;].*|\s+.*|$)` -/
def pString : Re :=
  rCat
    [ lazyPre 1 strDelim
    , wsS
    , .grp 2 (rCat [.chP (fun c => c == '\'')
        , .cat (.grp 3 (.alt (.chP (fun c => c != '\''))
            (.cat (.chP (fun c => c == '\'')) (.chP (fun c => c == '\'')))))
            (.starG (.grp 3 (.alt (.chP (fun c => c != '\''))
              (.cat (.chP (fun c => c == '\'')) (.chP (fun c => c == '\''))))))
        , .chP (fun c => c == '\'')])
    , .grp 4 (altList [.cat (.chP (memC [')', '\x7d', ']', '+', '-', '*', '/', '=', '|', '&', ',', ';'])) dotS
        , .cat wsP dotS, .emp]) ]

/-- `^(.*?[\(\[\{,;=\+\-\*\/\|\&\s]|^)\s*(\"([^\"])*\")([\)\}\]\+\-\*\/=\|\&,;].*|\s+.*|$)` -/
def pStringDQ : Re :=
  rCat
    [ lazyPre 1 strDelim
    , wsS
    , .grp 2 (rCat [.chP (fun c => c == '"')
        , .starG (.grp 3 (.chP (fun c => c != '"')))
        , .chP (fun c => c == '"')])
    , .grp 4 (altList [.cat (.chP (memC [')', '\x7d', ']', '+', '-', '*', '/', '=', '|', '&', ',', ';'])) dotS
        , .cat wsP dotS, .emp]) ]

/-- `^(.*\S|^)\s*(%.*)` -/
def pComment : Re := rCat
  [ .grp 1 (.alt (.cat dotS (.chP isNonWs)) .emp)
  , wsS
  , .grp 2 (.cat (.chP (fun c => c == '%')) dotS) ]

/-- `^\s+$` -/
def pBlank : Re := wsP

/-- `^(.*?\W|^)\s*(\d+\.?\d*)([eE][+-]?)(\d+)(.*)` -/
def pNumSci : Re := rCat
  [ lazyPre 1 isNonWord
  , wsS
  , .grp 2 (rCat [digP, .optG (.chP (fun c => c == '.')), digS])
  , .grp 3 (.cat (.chP (fun c => c == 'e' || c == 'E'))
      (.optG (.chP (fun c => c == '+' || c == '-'))))
  , .grp 4 digP
  , .grp 5 dotS ]

/-- `^(.*?\W|^)\s*(\d+)\s*(\/)\s*(\d+)(.*)` -/
def pNumRational : Re := rCat
  [ lazyPre 1 isNonWord, wsS, .grp 2 digP, wsS, .grp 3 (.chP (fun c => c == '/'))
  , wsS, .grp 4 digP, .grp 5 dotS ]

def signC (c : Char) : Bool := c == '+' || c == '-'

/-- `^(.*?\S|^)\s*(\+|\-)\s*(\+|\-)\s*([\)\]\},;].*|$)` -/
def pIncrement : Re := rCat
  [ lazyPre 1 isNonWs, wsS, .grp 2 (.chP signC), wsS, .grp 3 (.chP signC), wsS
  , .grp 4 (.alt (.cat (.chP (memC [')', ']', '\x7d', ',', ';'])) dotS) .emp) ]

/-- The delimiter class `[\(\[\{,;:=\*/\s]` of the unary-sign pattern. -/
def signDelim (c : Char) : Bool :=
  memC ['(', '[', '\x7b', ',', ';', ':', '=', '*', '/'] c || isWs c

/-- `^(.*?[\(\[\{,;:=\*/\s]|^)\s*(\+|\-)(\w.*)` -/
def pSign : Re := rCat
  [ lazyPre 1 signDelim, wsS, .grp 2 (.chP signC)
  , .grp 3 (.cat (.chP isWordC) dotS) ]

/-- `^(.*?\S|^)\s*(:)\s*(\S.*|$)` -/
def pColon : Re := rCat
  [ lazyPre 1 isNonWs, wsS, .grp 2 (.chP (fun c => c == ':')), wsS, restNB 3 ]

/-- `^(.*?\S|^)\s*(\.\.\.)\s*(\S.*|$)` -/
def pEllipsis : Re := rCat
  [ lazyPre 1 isNonWs, wsS, .grp 2 (lit "...".data), wsS, restNB 3 ]

/-- `^(.*?\S|^)\s*(\.)\s*(\+|\-|\*|/|\^)\s*(=)\s*(\S.*|$)` -/
def pOpDot : Re := rCat
  [ lazyPre 1 isNonWs, wsS, .grp 2 (.chP (fun c => c == '.')), wsS
  , .grp 3 (.chP (memC ['+', '-', '*', '/', '^'])), wsS
  , .grp 4 (.chP (fun c => c == '=')), wsS, restNB 5 ]

/-- `^(.*?\S|^)\s*(\.)\s*(\^)\s*(\S.*|$)` -/
def pPowDot : Re := rCat
  [ lazyPre 1 isNonWs, wsS, .grp 2 (.chP (fun c => c == '.')), wsS
  , .grp 3 (.chP (fun c => c == '^')), wsS, restNB 4 ]

/-- `^(.*?\S|^)\s*(\^)\s*(\S.*|$)` -/
def pPow : Re := rCat
  [ lazyPre 1 isNonWs, wsS, .grp 2 (.chP (fun c => c == '^')), wsS, restNB 3 ]

/-- `^(.*?\S|^)\s*(\.|\+|\-|\*|\\|/|=|<|>|\||\&|!|~|\^)\s*(<|>|=|\+|\-|\*|/|\&|\|)\s*(\S.*|$)` -/
def pOpComb : Re := rCat
  [ lazyPre 1 isNonWs, wsS
  , .grp 2 (.chP (memC ['.', '+', '-', '*', '\\', '/', '=', '<', '>', '|', '&', '!', '~', '^']))
  , wsS
  , .grp 3 (.chP (memC ['<', '>', '=', '+', '-', '*', '/', '&', '|']))
  , wsS, restNB 4 ]

/-- `^(.*?\S|^)\s*(!|~)\s*(\S.*|$)` -/
def pNot : Re := rCat
  [ lazyPre 1 isNonWs, wsS, .grp 2 (.chP (fun c => c == '!' || c == '~')), wsS, restNB 3 ]

/-- `^(.*?\S|^)\s*(\+|\-|\*|\\|/|=|!|~|<|>|\||\&)\s*(\S.*|$)` -/
def pOp : Re := rCat
  [ lazyPre 1 isNonWs, wsS
  , .grp 2 (.chP (memC ['+', '-', '*', '\\', '/', '=', '!', '~', '<', '>', '|', '&']))
  , wsS, restNB 3 ]

/-- `^(.*?\w)(\()\s*(\S.*|$)` -/
def pFunc : Re := rCat
  [ .grp 1 (.cat dotLz (.chP isWordC)), .grp 2 (.chP (fun c => c == '(')), wsS, restNB 3 ]

/-- `^(.*?)(\(|\[|\{)\s*(\S.*|$)` -/
def pOpen : Re := rCat
  [ .grp 1 dotLz, .grp 2 (.chP (memC ['(', '[', '\x7b'])), wsS, restNB 3 ]

/-- `^(.*?\S|^)\s*(\)|\]|\})(.*|$)` -/
def pClose : Re := rCat
  [ lazyPre 1 isNonWs, wsS, .grp 2 (.chP (memC [')', ']', '\x7d']))
  , .grp 3 (.alt dotS .emp) ]

/-- `^(.*?\S|^)\s*(,|;)\s*(\S.*|$)` -/
def pComma : Re := rCat
  [ lazyPre 1 isNonWs, wsS, .grp 2 (.chP (fun c => c == ',' || c == ';')), wsS, restNB 3 ]

/-- `^(.*?\S|^)(\s{2,})(\S.*|$)` -/
def pMultiWS : Re := rCat
  [ lazyPre 1 isNonWs, .grp 2 (rCat [.chP isWs, .chP isWs, wsS]), restNB 3 ]

/-- `^(\s*)(.*)$` -/
def initialIndent : Re := .cat (.grp 1 wsS) (.grp 2 dotS)

/-- The pattern `(\s*)((\S.*)?)(X.*$)` built by `cellIndent` for an opening
bracket `X` (`regexp.QuoteMeta` of a one-character string). -/
def cellPat (open_ : Char) : Re := rCat
  [ .grp 1 wsS
  , .grp 2 (.optG (.grp 3 (.cat (.chP isNonWs) dotS)))
  , .grp 4 (.cat (.chP (fun c => c == open_)) dotS) ]

end MatlabFmt

namespace MatlabFmt

/-- `Options` of the Go package (`StartLine`, `EndLine`, `IndentWidth`,
`SeparateBlocks`, `IndentMode`, `AddSpaces`, `MatrixIndent`). -/
structure Options where
  startLine : Int
  endLine : Int
  indentWidth : Int
  separateBlocks : Bool
  indentMode : String
  addSpaces : String
  matrixIndent : String
deriving DecidableEq

/-- `DefaultOptions`. -/
def DefaultOptions : Options :=
  { startLine := 1, endLine := 0, indentWidth := 4, separateBlocks := true
  , indentMode := "all_functions", addSpaces := "exclude_pow", matrixIndent := "aligned" }

/-- The `indentModes` map. -/
def indentModes : String → Option Int
  | "all_functions" => some 1
  | "only_nested_functions" => some (-1)
  | "classic" => some 0
  | _ => none

/-- The `operatorSpaces` map; the `float64` values `1.0`, `0.5`, `0.0` are
represented exactly as half-steps `2`, `1`, `0`. -/
def operatorSpaces : String → Option Nat
  | "all_operators" => some 2
  | "exclude_pow" => some 1
  | "no_spaces" => some 0
  | _ => none

/-- The `matrixIndentation` map. -/
def matrixIndentation : String → Option Bool
  | "aligned" => some true
  | "simple" => some false
  | _ => none

def blockCommentSentinel : Int := 1 <<< 30

/-- The configuration part of the Go `Formatter` struct (everything `New`
computes from `Options`). -/
structure Cfg where
  opts : Options
  indentMode : Int
  operatorSep : Nat
  matrixIndent : Bool
  iwidth : Int
  separateBlock : Bool
deriving DecidableEq

/-- `New`: fails exactly when `indentWidth ≤ 0`; unknown enumerated values
fall back to the defaults. -/
def FNew (o : Options) : Option Cfg :=
  if o.indentWidth ≤ 0 then none
  else some
    { opts := o
    , indentMode := (indentModes o.indentMode).getD 1
    , operatorSep := (operatorSpaces o.addSpaces).getD 1
    , matrixIndent := (matrixIndentation o.matrixIndent).getD true
    , iwidth := o.indentWidth
    , separateBlock := o.separateBlocks }

/-- The mutable engine state of the Go `Formatter` struct. -/
structure Fmt where
  ilvl : Int
  istep : List Int
  fstep : List Int
  matrix : Int
  cell : Int
  isBlockComment : Int
  isLineComment : Int
  longLine : Int
  continueLine : Int
  isComment : Int
  ignoreLines : Int
deriving DecidableEq

/-- `resetState`. -/
def resetState : Fmt :=
  { ilvl := 0, istep := [], fstep := [], matrix := 0, cell := 0, isBlockComment := 0
  , isLineComment := 0, longLine := 0, continueLine := 0, isComment := 0, ignoreLines := 0 }

/-- `unicode.IsSpace` on ASCII (used by `strings.TrimSpace`). -/
def goIsSpace (c : Char) : Bool :=
  c == ' ' || c == '\t' || c == '\n' || c == '\x0b' || c == '\x0c' || c == '\r'

/-- `strings.TrimSpace`. -/
def trimSpace (s : List Char) : List Char :=
  ((s.dropWhile goIsSpace).reverse.dropWhile goIsSpace).reverse

/-- `strings.TrimRight(line, " \t\r\n")`. -/
def trimRightNL (s : List Char) : List Char :=
  (s.reverse.dropWhile (memC [' ', '\t', '\r', '\n'])).reverse

/-- `extractStringOrComment` (the write to the never-read `isComment` field is
dropped; see the header comment). -/
def extractStringOrComment (part : List Char) :
    Option (List Char × List Char × List Char) :=
  let m0 := pString.reMatch part
  let m2 := pStringDQ.reMatch part
  let m := match m2, m0 with
    | some c2, some c => if (getG c 2).length < (getG c2 2).length then some c2 else some c
    | some c2, none => some c2
    | none, m0 => m0
  match m with
  | some c => some (getG c 1, getG c 2, getG c 4)
  | none =>
    match pComment.reMatch part with
    | some c => some (getG c 1 ++ [' '], getG c 2, [])
    | none => none

/-- `cleanLineFromStringsAndComments`, with fuel making the recursion
structural; the fuel is generous enough for the recursion to bottom out. -/
def cleanF : Nat → List Char → List Char
  | 0, line => line
  | fuel + 1, line =>
    match extractStringOrComment line with
    | some (left, _, right) => cleanF fuel left ++ [' '] ++ cleanF fuel right
    | none => line

def cleanLineFromStringsAndComments (line : List Char) : List Char :=
  cleanF ((line.length + 1) * (line.length + 1)) line

/-- `extract`: the ordered token-extraction rules. -/
def extract (cfg : Cfg) (part : List Char) :
    Option (List Char × List Char × List Char) :=
  let sep0 : List Char := if 0 < cfg.operatorSep then [' '] else []
  let sep1 : List Char := if 1 < cfg.operatorSep then [' '] else []
  if pBlank.test part then some ([], [' '], [])
  else match extractStringOrComment part with
  | some r => some r
  | none =>
  match pNumSci.reMatch part with
  | some m => some (getG m 1 ++ getG m 2, getG m 3, getG m 4 ++ getG m 5)
  | none =>
  match pNumRational.reMatch part with
  | some m => some (getG m 1 ++ getG m 2, getG m 3, getG m 4 ++ getG m 5)
  | none =>
  match pIncrement.reMatch part with
  | some m => some (getG m 1, getG m 2 ++ getG m 3, getG m 4)
  | none =>
  match pSign.reMatch part with
  | some m => some (getG m 1, getG m 2, getG m 3)
  | none =>
  match pColon.reMatch part with
  | some m => some (getG m 1, getG m 2, getG m 3)
  | none =>
  match pOpDot.reMatch part with
  | some m => some (getG m 1 ++ sep0, getG m 2 ++ getG m 3 ++ getG m 4, sep0 ++ getG m 5)
  | none =>
  match pPowDot.reMatch part with
  | some m => some (getG m 1 ++ sep1, getG m 2 ++ getG m 3, sep1 ++ getG m 4)
  | none =>
  match pPow.reMatch part with
  | some m => some (getG m 1 ++ sep1, getG m 2, sep1 ++ getG m 3)
  | none =>
  match pOpComb.reMatch part with
  | some m => some (getG m 1 ++ sep0, getG m 2 ++ getG m 3, sep0 ++ getG m 4)
  | none =>
  match pNot.reMatch part with
  | some m => some (getG m 1 ++ [' '], getG m 2, getG m 3)
  | none =>
  match pOp.reMatch part with
  | some m => some (getG m 1 ++ sep0, getG m 2, sep0 ++ getG m 3)
  | none =>
  match pFunc.reMatch part with
  | some m => some (getG m 1, getG m 2, getG m 3)
  | none =>
  match pOpen.reMatch part with
  | some m => some (getG m 1, getG m 2, getG m 3)
  | none =>
  match pClose.reMatch part with
  | some m => some (getG m 1, getG m 2, getG m 3)
  | none =>
  match pComma.reMatch part with
  | some m => some (getG m 1, getG m 2, [' '] ++ getG m 3)
  | none =>
  match pEllipsis.reMatch part with
  | some m => some (getG m 1 ++ [' '], getG m 2, [' '] ++ getG m 3)
  | none =>
  match pMultiWS.reMatch part with
  | some m => some (getG m 1, [' '], getG m 3)
  | none => none

/-- The recursive spacing normalizer `format`, with fuel making the recursion
structural. -/
def formatF (cfg : Cfg) : Nat → List Char → List Char
  | 0, part => part
  | fuel + 1, part =>
    match extract cfg part with
    | none => part
    | some (left, mid, right) =>
        formatF cfg fuel left ++ mid ++ formatF cfg fuel right

/-- Fuel sufficient for `formatF` to bottom out (proved below). -/
def fmtFuel (s : List Char) : Nat := (s.length + 1) * (s.length + 1)

def format (cfg : Cfg) (s : List Char) : List Char := formatF cfg (fmtFuel s) s

/-- `cellIndent`. -/
def cellIndent (cfg : Cfg) (line : List Char) (open_ close_ : Char) (ind : Int) :
    Int × Int :=
  let cleaned := cleanLineFromStringsAndComments line
  let openCount : Int := (cleaned.count open_ : Int) - (cleaned.count close_ : Int)
  if 0 < openCount then
    match (cellPat open_).reMatch cleaned with
    | some m =>
        (openCount, if cfg.matrixIndent then ((getG m 2).length : Int) + 1 else cfg.iwidth)
    | none => (openCount, ind)
  else if openCount < 0 then (openCount, 0)
  else (openCount, ind)

/-- `indent`. -/
def indent (cfg : Cfg) (f : Fmt) (extra : Int) : List Char :=
  let width := (f.ilvl + f.continueLine) * cfg.iwidth + extra
  if width ≤ 0 then [] else List.replicate width.toNat ' '

def natOfDigits (s : List Char) : Nat :=
  s.foldl (fun a c => 10 * a + (c.toNat - 48)) 0

/-- `strconv.Atoi` on a digit string succeeds exactly up to `math.MaxInt64`. -/
def maxInt64 : Nat := 2 ^ 63 - 1

/-- The comment-state update at the head of `formatLine`: the line-comment
lookback counter and the block-comment flag, plus the `isComment` reset. -/
def commentState (f0 : Fmt) (line : List Char) : Fmt :=
  let f1 := if lineComment.test line then { f0 with isLineComment := 2 }
    else if 0 < f0.isLineComment then { f0 with isLineComment := f0.isLineComment - 1 }
    else f0
  let f2 := if blockCommentOpen.test line then { f1 with isBlockComment := blockCommentSentinel }
    else if blockCommentClose.test line then { f1 with isBlockComment := 1 }
    else if 0 < f1.isBlockComment then { f1 with isBlockComment := f1.isBlockComment - 1 }
    else f1
  { f2 with isComment := 0 }

/-- The continuation-state update of `formatLine`: `continueLine` lags
`longLine` by one line, both computed on the string/comment-stripped line. -/
def contState (f3 : Fmt) (line : List Char) : Fmt :=
  let stripped := cleanLineFromStringsAndComments line
  let ellipsisInComment : Bool :=
    decide (f3.isLineComment = (2 : Int)) || decide ((0 : Int) < f3.isBlockComment)
  let f4 := if blockClose.test stripped || ellipsisInComment then { f3 with continueLine := 0 }
    else { f3 with continueLine := f3.longLine }
  if ellipsis.test stripped && !ellipsisInComment then { f4 with longLine := 1 }
  else { f4 with longLine := 0 }

/-- The classification/emission cascade of `formatLine`, applied after the
state updates above. -/
def classifyEmit (cfg : Cfg) (f5 : Fmt) (line : List Char) : Fmt × Int × List Char :=
    if 0 < f5.isBlockComment then (f5, 0, trimRightNL line)
    else if f5.isLineComment = 2 then
      let f6 := match ignoreCommand.reMatch line with
        | some m =>
            let g := getG m 1
            if g = [] then { f5 with ignoreLines := 1 }
            else if natOfDigits g ≤ maxInt64 then
              if 1 < natOfDigits g then { f5 with ignoreLines := (natOfDigits g : Int) }
              else { f5 with ignoreLines := 1 }
            else f5
        | none => f5
      (f6, 0, indent cfg f6 0 ++ trimSpace line)
    else if ctrlIgnore.test line then (f5, 0, indent cfg f5 0 ++ trimSpace line)
    else
      let prevMatrix := f5.matrix
      let md := cellIndent cfg line '[' ']' f5.matrix
      let f6 := { f5 with matrix := md.2 }
      if md.1 ≠ 0 ∨ prevMatrix ≠ 0 then
        (f6, 0, indent cfg f6 prevMatrix ++ trimSpace (format cfg line))
      else
        let prevCell := f6.cell
        let cd := cellIndent cfg line '\x7b' '\x7d' f6.cell
        let f7 := { f6 with cell := cd.2 }
        if cd.1 ≠ 0 ∨ prevCell ≠ 0 then
          (f7, 0, indent cfg f7 prevCell ++ trimSpace (format cfg line))
        else
          match ctrl1Line.reMatch line with
          | some m =>
              (f7, 0, indent cfg f7 0 ++ getG m 2 ++ [' '] ++ trimSpace (format cfg (getG m 3))
                ++ [' '] ++ getG m 4 ++ [' '] ++ trimSpace (format cfg (getG m 6)))
          | none =>
          match fcnStart.reMatch line with
          | some m =>
              let f8 := { f7 with fstep := f7.fstep ++ [1] }
              let offset := if cfg.indentMode = -1 then
                  (if 1 < f8.fstep.length then (1 : Int) else 0)
                else cfg.indentMode
              (f8, offset, indent cfg f8 0 ++ getG m 2 ++ [' '] ++ trimSpace (format cfg (getG m 3)))
          | none =>
          match ctrlStart.reMatch line with
          | some m =>
              ({ f7 with istep := f7.istep ++ [1] }, 1,
                indent cfg f7 0 ++ getG m 2 ++ [' '] ++ trimSpace (format cfg (getG m 3)))
          | none =>
          match ctrlStartSwitch.reMatch line with
          | some m =>
              ({ f7 with istep := f7.istep ++ [2] }, 2,
                indent cfg f7 0 ++ getG m 2 ++ [' '] ++ trimSpace (format cfg (getG m 3)))
          | none =>
          match ctrlCont.reMatch line with
          | some m =>
              (f7, 0, indent cfg f7 (-cfg.iwidth) ++ getG m 2 ++ [' ']
                ++ trimSpace (format cfg (getG m 3)))
          | none =>
          match ctrlEnd.reMatch line with
          | some m =>
              match f7.istep.getLast? with
              | some step =>
                  ({ f7 with istep := f7.istep.dropLast }, -step,
                    indent cfg f7 (-step * cfg.iwidth) ++ getG m 2 ++ [' ']
                      ++ trimSpace (format cfg (getG m 4)))
              | none =>
                match f7.fstep.getLast? with
                | some step =>
                    ({ f7 with fstep := f7.fstep.dropLast }, -step,
                      indent cfg f7 (-step * cfg.iwidth) ++ getG m 2 ++ [' ']
                        ++ trimSpace (format cfg (getG m 4)))
                | none =>
                  if 0 < f7.ilvl then
                    (f7, -1, indent cfg f7 0 ++ getG m 2 ++ [' ']
                      ++ trimSpace (format cfg (getG m 4)))
                  else
                    (f7, 0, indent cfg f7 0 ++ getG m 2 ++ [' ']
                      ++ trimSpace (format cfg (getG m 4)))
          | none =>
            (f7, 0, indent cfg f7 0 ++ trimSpace (format cfg line))

/-- `formatLine`: classifies one raw line, updates the engine state and
returns the indent offset together with the rewritten line.  The Go function
body is the sequential composition of the three pieces above, behind the
ignore-counter early return. -/
def formatLine (cfg : Cfg) (f0 : Fmt) (line : List Char) : Fmt × Int × List Char :=
  if 0 < f0.ignoreLines then
    ({ f0 with ignoreLines := f0.ignoreLines - 1 }, 0, indent cfg f0 0 ++ trimSpace line)
  else
    classifyEmit cfg (contState (commentState f0 line) line) line

/-- The driver loop of `FormatLines`.  The Go loop appends to the `output`
slice; here the same emissions, in the same order, are produced in front of
the recursive call on the remaining lines, threading the `blank` flag. -/
def procSeg (cfg : Cfg) : Fmt → Bool → List (List Char) → List (List Char)
  | _, _, [] => []
  | f, blank, rawLine :: rest =>
    if trimSpace rawLine = [] then
      if blank then procSeg cfg f blank rest
      else [] :: procSeg cfg f true rest
    else
      let r := formatLine cfg f rawLine
      let offset := r.2.1
      let f' := { r.1 with ilvl := if r.1.ilvl + offset < 0 then 0 else r.1.ilvl + offset }
      (if cfg.separateBlock ∧ 0 < offset ∧ blank = false ∧ f'.isLineComment = 0
        then [([] : List Char)] else []) ++
      trimRightNL r.2.2 ::
        (if cfg.separateBlock ∧ offset < 0 then [] :: procSeg cfg f' true rest
          else procSeg cfg f' false rest)

/-- `for len(output) > 0 && output[len(output)-1] == "" { ... }` -/
def dropTrailingBlanks (out : List (List Char)) : List (List Char) :=
  (out.reverse.dropWhile (fun l => l = [])).reverse

/-- The start index of the selected range (0-based, clamped). -/
def startIdxOf (cfg : Cfg) (lines : List (List Char)) : Nat :=
  min ((if cfg.opts.startLine < 1 then 1 else cfg.opts.startLine) - 1).toNat lines.length

/-- The end index (exclusive) of the selected range. -/
def endIdxOf (cfg : Cfg) (lines : List (List Char)) : Nat :=
  max
    (if 0 < cfg.opts.endLine ∧ cfg.opts.endLine ≤ (lines.length : Int)
      then cfg.opts.endLine.toNat else lines.length)
    (startIdxOf cfg lines)

/-- `FormatLines` (the `error` result of the Go function is always `nil`;
it is omitted). -/
def FormatLines (cfg : Cfg) (lines : List (List Char)) : List (List Char) :=
  let startIdx := startIdxOf cfg lines
  let endIdx := endIdxOf cfg lines
  if startIdx = endIdx then lines
  else
    let segment := (lines.drop startIdx).take (endIdx - startIdx)
    let segment := if segment = [] then [[]] else segment
    let p :=
      match segment with
      | [] => ((0 : Int), segment)
      | s0 :: srest =>
        match initialIndent.reMatch s0 with
        | some m => ((((getG m 1).length / cfg.iwidth.toNat : Nat) : Int), getG m 2 :: srest)
        | none => (0, segment)
    let f0 := { resetState with ilvl := p.1 }
    let output := procSeg cfg f0 true p.2
    let output := if endIdx = lines.length then
        (let o := dropTrailingBlanks output; if o = [] then [[]] else o)
      else if output = [] then [[]] else output
    lines.take startIdx ++ output ++ lines.drop endIdx

end MatlabFmt

namespace MatlabFmt

/-- Convenience: a list of lines from string literals. -/
def strLines (l : List String) : List (List Char) := l.map String.data

/-- `New` followed by `FormatLines`: the public formatting entry point for a
line slice (file I/O is external to the engine). -/
def runFmt (o : Options) (l : List (List Char)) : Option (List (List Char)) :=
  (FNew o).map (fun cfg => FormatLines cfg l)

/-- The configuration produced by `New` from the default options. -/
def cfgD : Cfg :=
  { opts := DefaultOptions
  , indentMode := 1
  , operatorSep := 1
  , matrixIndent := true
  , iwidth := 4
  , separateBlock := true }

/-- Count of non-whitespace characters: the termination measure of the
recursive normalizer (each extraction either lowers it or keeps it while
strictly shortening the text). -/
def muNW (s : List Char) : Nat := (s.filter isNonWs).length

/-- Declarative matching relation for the regex trees: `RM re s caps` holds
when `re` can match exactly `s`, producing the capture bindings `caps`
(most recent first).  `Re.mrun` is sound for it. -/
inductive RM : Re → List Char → Caps → Prop where
  | emp : RM .emp [] []
  | chP {p : Char → Bool} {c : Char} : p c = true → RM (.chP p) [c] []
  | cat {a b : Re} {s1 s2 : List Char} {c1 c2 : Caps} :
      RM a s1 c1 → RM b s2 c2 → RM (.cat a b) (s1 ++ s2) (c2 ++ c1)
  | altL {a b : Re} {s : List Char} {c : Caps} : RM a s c → RM (.alt a b) s c
  | altR {a b : Re} {s : List Char} {c : Caps} : RM b s c → RM (.alt a b) s c
  | starNil {a : Re} : RM (.starG a) [] []
  | starCons {a : Re} {s1 s2 : List Char} {c1 c2 : Caps} :
      RM a s1 c1 → RM (.starG a) s2 c2 → RM (.starG a) (s1 ++ s2) (c2 ++ c1)
  | starLNil {a : Re} : RM (.starL a) [] []
  | starLCons {a : Re} {s1 s2 : List Char} {c1 c2 : Caps} :
      RM a s1 c1 → RM (.starL a) s2 c2 → RM (.starL a) (s1 ++ s2) (c2 ++ c1)
  | optNone {a : Re} : RM (.optG a) [] []
  | optSome {a : Re} {s : List Char} {c : Caps} : RM a s c → RM (.optG a) s c
  | grp {i : Nat} {a : Re} {s : List Char} {c : Caps} :
      RM a s c → RM (.grp i a) s ((i, s) :: c)

end MatlabFmt

namespace MatlabFmt

/-- Options with the formatted range restricted to lines 1–2. -/
def optsEnd2 : Options := { DefaultOptions with endLine := 2 }

/-- Defaults with the `classic` (no function indent) indentation mode. -/
def optsClassic : Options := { DefaultOptions with indentMode := "classic" }

/-- The configuration produced by `New` from the classic-mode options. -/
def cfgClassic : Cfg :=
  { opts := optsClassic
  , indentMode := 0
  , operatorSep := 1
  , matrixIndent := true
  , iwidth := 4
  , separateBlock := true }

/-- A fragment on which both quoted-string patterns match. -/
def sTieInput : List Char := "('a', \"bcdef\")".data

/-- Options selecting only the first line of the file. -/
def optsEnd1 : Options := { DefaultOptions with endLine := 1 }

/-- The configuration produced by `New` from `optsEnd1`. -/
def cfgEnd1 : Cfg :=
  { opts := optsEnd1
  , indentMode := 1
  , operatorSep := 1
  , matrixIndent := true
  , iwidth := 4
  , separateBlock := true }

/-- Whether a pattern contains no capture group. -/
def Re.gFree : Re → Bool
  | .emp => true
  | .chP _ => true
  | .cat a b => a.gFree && b.gFree
  | .alt a b => a.gFree && b.gFree
  | .starG a => a.gFree
  | .starL a => a.gFree
  | .optG a => a.gFree
  | .grp _ _ => false

/-- The capture-group indices occurring in a pattern. -/
def Re.gIdx : Re → List Nat
  | .emp => []
  | .chP _ => []
  | .cat a b => a.gIdx ++ b.gIdx
  | .alt a b => a.gIdx ++ b.gIdx
  | .starG a => a.gIdx
  | .starL a => a.gIdx
  | .optG a => a.gIdx
  | .grp i a => i :: a.gIdx

/-- The combined termination measure of the recursive normalizer: the
lexicographic pair (non-whitespace count, length) flattened into one number. -/
def fmtMeasure (s : List Char) : Nat := muNW s * (s.length + 1) + s.length

/-- C1: `FormatLines` is not idempotent.  With the default configuration
restricted to `EndLine = 2`, formatting `["if x", "end", "z"]` inserts the
block-separation blank after `end`; formatting that output again (same
configuration, same code path) inserts a second blank, so the second pass is
not byte-identical to the first.  (The repository's own reference fixture is
likewise not a fixed point: aligned matrix continuation indent is computed
from the unnormalized input text, so e.g. `["A=[1,2;", "3,4];"]` and its
output format to differently indented continuations.) -/
theorem formatLines_not_idempotent :
    runFmt optsEnd2 (strLines ["if x", "end", "z"]) =
      some (strLines ["if x", "end", "", "z"]) ∧
    runFmt optsEnd2 (strLines ["if x", "end", "", "z"]) =
      some (strLines ["if x", "end", "", "", "z"]) ∧
    strLines ["if x", "end", "", "", "z"] ≠ strLines ["if x", "end", "", "z"] := by
  refine ⟨by rfl, by rfl, by decide⟩

/-- C2 (counterexample): the emitted range's initial indent does not match the
original first selected line's indent: a first selected line indented by 2
spaces under the default indent width 4 starts the running level at
`2 / 4 = 0`, so the line is emitted with no indent at all. -/
theorem partial_range_initial_indent_cex :
    runFmt DefaultOptions (strLines ["  x"]) = some (strLines ["x"]) ∧
    ("  x".data.takeWhile isWs).length = 2 ∧
    ("x".data.takeWhile isWs).length = 0 := by
  refine ⟨by rfl, by decide, by decide⟩

/-- C3 (counterexample): with block separation on, the blank line is emitted
before the opener line and after the closer line, not (as claimed) after the
opener and before the closer: in the output below, position 3 — immediately
after the opener `if a` and immediately before the closer `end` — holds the
body line `    y`, not a blank. -/
theorem blank_separation_placement_cex :
    runFmt DefaultOptions (strLines ["x", "if a", "y", "end", "z"]) =
      some (strLines ["x", "", "if a", "    y", "end", "", "z"]) ∧
    (strLines ["x", "", "if a", "    y", "end", "", "z"]).get? 2 = some "if a".data ∧
    (strLines ["x", "", "if a", "    y", "end", "", "z"]).get? 3 = some "    y".data ∧
    (strLines ["x", "", "if a", "    y", "end", "", "z"]).get? 4 = some "end".data ∧
    "    y".data ≠ ([] : List Char) := by
  refine ⟨by rfl, by rfl, by rfl, by rfl, by decide⟩

/-- C4 (counterexample): when both quote-style patterns match, the extractor
does not select the shorter (here also leftmost-starting) match: on
`('a', "bcdef")` the single-quote match `'a'` is strictly shorter (and starts
earlier) than the double-quote match `"bcdef"`, yet the double-quote match is
selected. -/
theorem string_tiebreak_shorter_cex :
    (pString.reMatch sTieInput).map (fun c => getG c 2) = some "'a'".data ∧
    (pStringDQ.reMatch sTieInput).map (fun c => getG c 2) = some "\"bcdef\"".data ∧
    ("'a'".data).length < ("\"bcdef\"".data).length ∧
    extractStringOrComment sTieInput =
      some ("('a',".data, "\"bcdef\"".data, ")".data) := by
  refine ⟨by rfl, by rfl, by decide, by rfl⟩

/-- C6 (counterexample): in `classic` mode a `function` opener contributes
indent delta 0, but its matching `end` still pops the constant stack entry 1:
formatting a selection that starts inside one indent level, the `end` line is
emitted dedented by one step and the following line drops a level — the
closer's delta is `-1`, not the `-0` the symmetry claim predicts. -/
theorem classic_closer_delta_cex :
    runFmt optsClassic (strLines ["    function f", "x = 1", "end", "y = 2"]) =
      some (strLines ["    function f", "    x = 1", "end", "", "y = 2"]) ∧
    (strLines ["    function f", "    x = 1", "end", "", "y = 2"]).get? 2 = some "end".data ∧
    "end".data ≠ "    end".data ∧
    (strLines ["    function f", "    x = 1", "end", "", "y = 2"]).get? 4 = some "y = 2".data ∧
    "y = 2".data ≠ "    y = 2".data := by
  refine ⟨by rfl, by rfl, by decide, by rfl, by decide⟩

/-- C7 (counterexample): the aligned continuation indent is one more than the
length of everything between the leading whitespace and the opening bracket —
including any spaces just before the bracket — not one past the column after
the last non-whitespace character.  On `A =  [1;` (two spaces before `[`) the
region indent is 6; the claimed formula gives 5 (1-based columns) or 4
(0-based). -/
theorem aligned_indent_formula_cex :
    runFmt DefaultOptions (strLines ["A =  [1;", "2];"]) =
      some (strLines ["A = [1;", "      2];"]) ∧
    (strLines ["A = [1;", "      2];"]).get? 1 = some "      2];".data ∧
    "      2];".data ≠ "     2];".data ∧
    "      2];".data ≠ "    2];".data := by
  refine ⟨by rfl, by rfl, by decide, by decide⟩

/-- C8 (counterexample): an ignored line is not emitted with merely its outer
whitespace trimmed — the current indent is prepended to the trimmed content.
Inside an `if` block (running level 1, width 4), the line `  z  = [1` under an
ignore directive is emitted as `    z  = [1`, not as `z  = [1`. -/
theorem ignore_directive_trimmed_only_cex :
    runFmt DefaultOptions (strLines ["if a", "% formatter ignore 1", "  z  = [1", "end"]) =
      some (strLines ["if a", "    % formatter ignore 1", "    z  = [1", "end"]) ∧
    (strLines ["if a", "    % formatter ignore 1", "    z  = [1", "end"]).get? 2 =
      some "    z  = [1".data ∧
    "    z  = [1".data ≠ trimSpace "  z  = [1".data := by
  refine ⟨by rfl, by rfl, by decide⟩

end MatlabFmt

namespace MatlabFmt

theorem commentState_id (f : Fmt) (line : List Char)
    (h1 : lineComment.test line = false) (h2 : f.isLineComment = 0)
    (h3 : blockCommentOpen.test line = false) (h4 : blockCommentClose.test line = false)
    (h5 : f.isBlockComment = 0) (h6 : f.isComment = 0) :
    commentState f line = f := by
  obtain ⟨lv, is0, fs0, mx, ce, bc, lc, lg, ct, ic, ig⟩ := f
  simp only at h2 h5 h6
  subst h2 h5 h6
  unfold commentState
  simp [h1, h3, h4]

theorem commentState_comment (f : Fmt) (line : List Char)
    (h1 : lineComment.test line = true)
    (h3 : blockCommentOpen.test line = false) (h4 : blockCommentClose.test line = false)
    (h5 : f.isBlockComment = 0) (h6 : f.isComment = 0) :
    commentState f line = { f with isLineComment := 2 } := by
  obtain ⟨lv, is0, fs0, mx, ce, bc, lc, lg, ct, ic, ig⟩ := f
  simp only at h5 h6
  subst h5 h6
  unfold commentState
  simp [h1, h3, h4]

theorem contState_id (f : Fmt) (line : List Char)
    (hlc : f.isLineComment ≠ 2) (hbc : f.isBlockComment ≤ 0)
    (hll : f.longLine = 0) (hct : f.continueLine = 0)
    (hS2 : ellipsis.test (cleanLineFromStringsAndComments line) = false) :
    contState f line = f := by
  obtain ⟨lv, is0, fs0, mx, ce, bc, lc, lg, ct, ic, ig⟩ := f
  simp only at hlc hbc hll hct
  subst hll hct
  unfold contState
  simp [hS2, hlc, not_lt.mpr hbc, ite_self]

theorem contState_comment (f : Fmt) (line : List Char)
    (hlc : f.isLineComment = 2)
    (hll : f.longLine = 0) (hct : f.continueLine = 0) :
    contState f line = f := by
  obtain ⟨lv, is0, fs0, mx, ce, bc, lc, lg, ct, ic, ig⟩ := f
  simp only at hlc hll hct
  subst hlc hll hct
  unfold contState
  simp [ite_self]

/-- Under a quiescent comment/continuation state, `formatLine` is exactly the
classification cascade. -/
theorem formatLine_noComment (cfg : Cfg) (f : Fmt) (line : List Char)
    (hig : f.ignoreLines = 0)
    (hLC : lineComment.test line = false) (hlc : f.isLineComment = 0)
    (hBO : blockCommentOpen.test line = false) (hBCc : blockCommentClose.test line = false)
    (hbc : f.isBlockComment = 0) (hic : f.isComment = 0)
    (hll : f.longLine = 0) (hct : f.continueLine = 0)
    (hS2 : ellipsis.test (cleanLineFromStringsAndComments line) = false) :
    formatLine cfg f line = classifyEmit cfg f line := by
  unfold formatLine
  rw [if_neg (by rw [hig]; exact lt_irrefl 0)]
  rw [commentState_id f line hLC hlc hBO hBCc hbc hic]
  rw [contState_id f line (by rw [hlc]; decide) (le_of_eq hbc) hll hct hS2]

/-- A line-comment line under a quiescent state: `formatLine` is the cascade
at the state with the 2-tick lookback counter set. -/
theorem formatLine_comment (cfg : Cfg) (f : Fmt) (line : List Char)
    (hig : f.ignoreLines = 0)
    (hLC : lineComment.test line = true)
    (hBO : blockCommentOpen.test line = false) (hBCc : blockCommentClose.test line = false)
    (hbc : f.isBlockComment = 0) (hic : f.isComment = 0)
    (hll : f.longLine = 0) (hct : f.continueLine = 0) :
    formatLine cfg f line = classifyEmit cfg { f with isLineComment := 2 } line := by
  unfold formatLine
  rw [if_neg (by rw [hig]; exact lt_irrefl 0)]
  rw [commentState_comment f line hLC hBO hBCc hbc hic]
  rw [contState_comment { f with isLineComment := 2 } line rfl hll hct]

theorem classifyEmit_end_dangling (cfg : Cfg) (f : Fmt) (line : List Char) (m : Caps)
    (hbc : f.isBlockComment ≤ 0) (hlc : f.isLineComment ≠ 2)
    (hCI : ctrlIgnore.test line = false)
    (hmx : f.matrix = 0) (hcl : f.cell = 0)
    (hM : cellIndent cfg line '[' ']' 0 = (0, 0))
    (hC : cellIndent cfg line '\x7b' '\x7d' 0 = (0, 0))
    (h1 : ctrl1Line.reMatch line = none) (h2 : fcnStart.reMatch line = none)
    (h3 : ctrlStart.reMatch line = none) (h4 : ctrlStartSwitch.reMatch line = none)
    (h5 : ctrlCont.reMatch line = none) (h6 : ctrlEnd.reMatch line = some m)
    (hist : f.istep = []) (hfst : f.fstep = []) (hlvl : 0 < f.ilvl) :
    classifyEmit cfg f line =
      (f, -1, indent cfg f 0 ++ getG m 2 ++ [' '] ++ trimSpace (format cfg (getG m 4))) := by
  obtain ⟨lv, is0, fs0, mx, ce, bc, lc, lg, ct, ic, ig⟩ := f
  simp only at hbc hlc hmx hcl hist hfst hlvl
  subst hmx hcl hist hfst
  unfold classifyEmit
  simp [hCI, hM, hC, h1, h2, h3, h4, h5, h6, not_lt.mpr hbc, hlc, hlvl]

/-- C5: a member of the `end` family reaching the classifier with both depth
stacks empty and a positive running level is treated as a 1-step closer: the
offset (applied by the driver only to subsequent lines) is `-1`, the line
itself is emitted at the current running indent (`indent cfg f 0`) with no
extra reduction, the engine state is unchanged, and a result is always
produced. -/
theorem dangling_closer_heuristic (cfg : Cfg) (f : Fmt) (line : List Char) (m : Caps)
    (hig : f.ignoreLines = 0)
    (hLC : lineComment.test line = false) (hlc : f.isLineComment = 0)
    (hBO : blockCommentOpen.test line = false) (hBCc : blockCommentClose.test line = false)
    (hbc : f.isBlockComment = 0) (hic : f.isComment = 0)
    (hll : f.longLine = 0) (hct : f.continueLine = 0)
    (hS2 : ellipsis.test (cleanLineFromStringsAndComments line) = false)
    (hCI : ctrlIgnore.test line = false)
    (hmx : f.matrix = 0) (hcl : f.cell = 0)
    (hM : cellIndent cfg line '[' ']' 0 = (0, 0))
    (hC : cellIndent cfg line '\x7b' '\x7d' 0 = (0, 0))
    (h1 : ctrl1Line.reMatch line = none) (h2 : fcnStart.reMatch line = none)
    (h3 : ctrlStart.reMatch line = none) (h4 : ctrlStartSwitch.reMatch line = none)
    (h5 : ctrlCont.reMatch line = none) (h6 : ctrlEnd.reMatch line = some m)
    (hist : f.istep = []) (hfst : f.fstep = []) (hlvl : 0 < f.ilvl) :
    formatLine cfg f line =
      (f, -1, indent cfg f 0 ++ getG m 2 ++ [' '] ++ trimSpace (format cfg (getG m 4))) := by
  rw [formatLine_noComment cfg f line hig hLC hlc hBO hBCc hbc hic hll hct hS2]
  exact classifyEmit_end_dangling cfg f line m (le_of_eq hbc) (by rw [hlc]; decide)
    hCI hmx hcl hM hC h1 h2 h3 h4 h5 h6 hist hfst hlvl

/-- Witness for C5: an `end` line with empty stacks at running level 1
(indent width 4) is emitted at 4 spaces with offset `-1` and untouched
state. -/
theorem dangling_closer_heuristic_wit :
    formatLine cfgD { resetState with ilvl := 1 } "end".data =
      ({ resetState with ilvl := 1 }, -1, "    end ".data) := by
  have h := dangling_closer_heuristic cfgD { resetState with ilvl := 1 } "end".data
    ((ctrlEnd.reMatch "end".data).getD []) rfl rfl rfl rfl rfl rfl rfl rfl rfl rfl rfl
    rfl rfl rfl rfl rfl rfl rfl rfl rfl rfl rfl rfl (by decide)
  exact h.trans (by rfl)

theorem classifyEmit_fcn_push (cfg : Cfg) (f : Fmt) (line : List Char) (m : Caps)
    (hbc : f.isBlockComment ≤ 0) (hlc : f.isLineComment ≠ 2)
    (hCI : ctrlIgnore.test line = false)
    (hmx : f.matrix = 0) (hcl : f.cell = 0)
    (hM : cellIndent cfg line '[' ']' 0 = (0, 0))
    (hC : cellIndent cfg line '\x7b' '\x7d' 0 = (0, 0))
    (h1 : ctrl1Line.reMatch line = none)
    (h2 : fcnStart.reMatch line = some m) :
    classifyEmit cfg f line =
      ({ f with fstep := f.fstep ++ [1] },
        (if cfg.indentMode = -1 then (if 0 < f.fstep.length then (1 : Int) else 0)
          else cfg.indentMode),
        indent cfg f 0 ++ getG m 2 ++ [' '] ++ trimSpace (format cfg (getG m 3))) := by
  obtain ⟨lv, is0, fs0, mx, ce, bc, lc, lg, ct, ic, ig⟩ := f
  simp only at hbc hlc hmx hcl
  subst hmx hcl
  unfold classifyEmit
  simp [hCI, hM, hC, h1, h2, not_lt.mpr hbc, hlc, indent, Nat.succ_lt_succ_iff,
    Nat.pos_iff_ne_zero, List.length_eq_zero]

theorem classifyEmit_end_pop_fstep (cfg : Cfg) (f : Fmt) (line : List Char) (m : Caps)
    (fs : List Int) (st : Int)
    (hbc : f.isBlockComment ≤ 0) (hlc : f.isLineComment ≠ 2)
    (hCI : ctrlIgnore.test line = false)
    (hmx : f.matrix = 0) (hcl : f.cell = 0)
    (hM : cellIndent cfg line '[' ']' 0 = (0, 0))
    (hC : cellIndent cfg line '\x7b' '\x7d' 0 = (0, 0))
    (h1 : ctrl1Line.reMatch line = none) (h2 : fcnStart.reMatch line = none)
    (h3 : ctrlStart.reMatch line = none) (h4 : ctrlStartSwitch.reMatch line = none)
    (h5 : ctrlCont.reMatch line = none) (h6 : ctrlEnd.reMatch line = some m)
    (hist : f.istep = []) (hfst : f.fstep = fs ++ [st]) :
    classifyEmit cfg f line =
      ({ f with fstep := fs }, -st,
        indent cfg f (-st * cfg.iwidth) ++ getG m 2 ++ [' ']
          ++ trimSpace (format cfg (getG m 4))) := by
  obtain ⟨lv, is0, fs0, mx, ce, bc, lc, lg, ct, ic, ig⟩ := f
  simp only at hbc hlc hmx hcl hist hfst
  subst hmx hcl hist hfst
  unfold classifyEmit
  simp [hCI, hM, hC, h1, h2, h3, h4, h5, h6, not_lt.mpr hbc, hlc,
    List.getLast?_concat, List.dropLast_concat]

/-- C6 (amended): a `function`/`classdef` opener always pushes the constant
entry 1 on the function-depth stack while contributing the mode-dependent
offset (full step in uniform mode, zero in classic mode, zero for the
outermost and one for nested functions in only-nested mode); the matching
`end` pops the stack and applies the delta `-(popped entry)` — always `-1`
for a function entry, regardless of what the opener contributed. -/
theorem function_open_close_steps :
    (∀ (cfg : Cfg) (f : Fmt) (line : List Char) (m : Caps),
      f.ignoreLines = 0 →
      lineComment.test line = false → f.isLineComment = 0 →
      blockCommentOpen.test line = false → blockCommentClose.test line = false →
      f.isBlockComment = 0 → f.isComment = 0 →
      f.longLine = 0 → f.continueLine = 0 →
      ellipsis.test (cleanLineFromStringsAndComments line) = false →
      ctrlIgnore.test line = false → f.matrix = 0 → f.cell = 0 →
      cellIndent cfg line '[' ']' 0 = (0, 0) →
      cellIndent cfg line '\x7b' '\x7d' 0 = (0, 0) →
      ctrl1Line.reMatch line = none → fcnStart.reMatch line = some m →
      formatLine cfg f line =
        ({ f with fstep := f.fstep ++ [1] },
          (if cfg.indentMode = -1 then (if 0 < f.fstep.length then (1 : Int) else 0)
            else cfg.indentMode),
          indent cfg f 0 ++ getG m 2 ++ [' '] ++ trimSpace (format cfg (getG m 3)))) ∧
    (∀ (cfg : Cfg) (f : Fmt) (line : List Char) (m : Caps) (fs : List Int) (st : Int),
      f.ignoreLines = 0 →
      lineComment.test line = false → f.isLineComment = 0 →
      blockCommentOpen.test line = false → blockCommentClose.test line = false →
      f.isBlockComment = 0 → f.isComment = 0 →
      f.longLine = 0 → f.continueLine = 0 →
      ellipsis.test (cleanLineFromStringsAndComments line) = false →
      ctrlIgnore.test line = false → f.matrix = 0 → f.cell = 0 →
      cellIndent cfg line '[' ']' 0 = (0, 0) →
      cellIndent cfg line '\x7b' '\x7d' 0 = (0, 0) →
      ctrl1Line.reMatch line = none → fcnStart.reMatch line = none →
      ctrlStart.reMatch line = none → ctrlStartSwitch.reMatch line = none →
      ctrlCont.reMatch line = none → ctrlEnd.reMatch line = some m →
      f.istep = [] → f.fstep = fs ++ [st] →
      formatLine cfg f line =
        ({ f with fstep := fs }, -st,
          indent cfg f (-st * cfg.iwidth) ++ getG m 2 ++ [' ']
            ++ trimSpace (format cfg (getG m 4)))) := by
  constructor
  · intro cfg f line m hig hLC hlc hBO hBCc hbc hic hll hct hS2 hCI hmx hcl hM hC h1 h2
    rw [formatLine_noComment cfg f line hig hLC hlc hBO hBCc hbc hic hll hct hS2]
    exact classifyEmit_fcn_push cfg f line m (le_of_eq hbc) (by rw [hlc]; decide)
      hCI hmx hcl hM hC h1 h2
  · intro cfg f line m fs st hig hLC hlc hBO hBCc hbc hic hll hct hS2 hCI hmx hcl hM hC
      h1 h2 h3 h4 h5 h6 hist hfst
    rw [formatLine_noComment cfg f line hig hLC hlc hBO hBCc hbc hic hll hct hS2]
    exact classifyEmit_end_pop_fstep cfg f line m fs st (le_of_eq hbc) (by rw [hlc]; decide)
      hCI hmx hcl hM hC h1 h2 h3 h4 h5 h6 hist hfst

/-- Witness for C6: in classic mode `function f` pushes 1 and contributes
offset 0; popping that entry at `end` contributes offset `-1`. -/
theorem function_open_close_steps_wit :
    formatLine cfgClassic resetState "function f".data =
      ({ resetState with fstep := [1] }, 0, "function f".data) ∧
    formatLine cfgD { resetState with fstep := [1] } "end".data =
      (resetState, -1, "end ".data) := by
  constructor
  · have h := function_open_close_steps.1 cfgClassic resetState "function f".data
      ((fcnStart.reMatch "function f".data).getD [])
      rfl rfl rfl rfl rfl rfl rfl rfl rfl rfl rfl rfl rfl rfl rfl rfl rfl
    exact h.trans (by rfl)
  · have h := function_open_close_steps.2 cfgD { resetState with fstep := [1] } "end".data
      ((ctrlEnd.reMatch "end".data).getD []) [] 1
      rfl rfl rfl rfl rfl rfl rfl rfl rfl rfl rfl rfl rfl rfl rfl rfl rfl rfl rfl rfl rfl rfl rfl
    exact h.trans (by rfl)

end MatlabFmt

namespace MatlabFmt

theorem classifyEmit_matrix_open (cfg : Cfg) (f : Fmt) (line : List Char)
    (d ind : Int)
    (hbc : f.isBlockComment ≤ 0) (hlc : f.isLineComment ≠ 2)
    (hCI : ctrlIgnore.test line = false)
    (hmx : f.matrix = 0)
    (hM : cellIndent cfg line '[' ']' 0 = (d, ind)) (hd : d ≠ 0) :
    classifyEmit cfg f line =
      ({ f with matrix := ind }, 0, indent cfg f 0 ++ trimSpace (format cfg line)) := by
  obtain ⟨lv, is0, fs0, mx, ce, bc, lc, lg, ct, ic, ig⟩ := f
  simp only at hbc hlc hmx
  subst hmx
  unfold classifyEmit
  simp [hCI, hM, not_lt.mpr hbc, hlc, hd, indent]

theorem classifyEmit_matrix_cont (cfg : Cfg) (f : Fmt) (line : List Char)
    (d ind : Int)
    (hbc : f.isBlockComment ≤ 0) (hlc : f.isLineComment ≠ 2)
    (hCI : ctrlIgnore.test line = false)
    (hmx : f.matrix ≠ 0)
    (hM : cellIndent cfg line '[' ']' f.matrix = (d, ind)) :
    classifyEmit cfg f line =
      ({ f with matrix := ind }, 0,
        indent cfg f f.matrix ++ trimSpace (format cfg line)) := by
  obtain ⟨lv, is0, fs0, mx, ce, bc, lc, lg, ct, ic, ig⟩ := f
  simp only at hbc hlc hmx hM
  unfold classifyEmit
  simp [hCI, hM, not_lt.mpr hbc, hlc, hmx, indent]

theorem cellIndent_open_aligned (cfg : Cfg) (line : List Char) (o c : Char)
    (ind : Int) (m : Caps)
    (halign : cfg.matrixIndent = true)
    (hcnt : 0 < ((cleanLineFromStringsAndComments line).count o : Int)
      - ((cleanLineFromStringsAndComments line).count c : Int))
    (hm : (cellPat o).reMatch (cleanLineFromStringsAndComments line) = some m) :
    cellIndent cfg line o c ind =
      (((cleanLineFromStringsAndComments line).count o : Int)
        - ((cleanLineFromStringsAndComments line).count c : Int),
       ((getG m 2).length : Int) + 1) := by
  unfold cellIndent
  simp [hcnt, hm, halign]

theorem cellIndent_open_simple (cfg : Cfg) (line : List Char) (o c : Char)
    (ind : Int) (m : Caps)
    (halign : cfg.matrixIndent = false)
    (hcnt : 0 < ((cleanLineFromStringsAndComments line).count o : Int)
      - ((cleanLineFromStringsAndComments line).count c : Int))
    (hm : (cellPat o).reMatch (cleanLineFromStringsAndComments line) = some m) :
    cellIndent cfg line o c ind =
      (((cleanLineFromStringsAndComments line).count o : Int)
        - ((cleanLineFromStringsAndComments line).count c : Int), cfg.iwidth) := by
  unfold cellIndent
  simp [hcnt, hm, halign]

/-- C7 (amended): a line whose stripped text has a positive net count of
unclosed `[` opens a tracked matrix region; in aligned mode the tracked
indent is one more than the length of the capture between the leading
whitespace and the opening bracket selected by the greedy pattern (spaces
before the bracket included), in simple mode it is one indent width.  While
a region is open (or closed by this line) the line is emitted at the running
structural indent plus the tracked indent, spacing-normalized, with offset 0. -/
theorem matrix_region_tracking :
    (∀ (cfg : Cfg) (line : List Char) (o c : Char) (ind : Int) (m : Caps),
      cfg.matrixIndent = true →
      0 < ((cleanLineFromStringsAndComments line).count o : Int)
        - ((cleanLineFromStringsAndComments line).count c : Int) →
      (cellPat o).reMatch (cleanLineFromStringsAndComments line) = some m →
      cellIndent cfg line o c ind =
        (((cleanLineFromStringsAndComments line).count o : Int)
          - ((cleanLineFromStringsAndComments line).count c : Int),
         ((getG m 2).length : Int) + 1)) ∧
    (∀ (cfg : Cfg) (line : List Char) (o c : Char) (ind : Int) (m : Caps),
      cfg.matrixIndent = false →
      0 < ((cleanLineFromStringsAndComments line).count o : Int)
        - ((cleanLineFromStringsAndComments line).count c : Int) →
      (cellPat o).reMatch (cleanLineFromStringsAndComments line) = some m →
      cellIndent cfg line o c ind =
        (((cleanLineFromStringsAndComments line).count o : Int)
          - ((cleanLineFromStringsAndComments line).count c : Int), cfg.iwidth)) ∧
    (∀ (cfg : Cfg) (f : Fmt) (line : List Char) (d ind : Int),
      f.ignoreLines = 0 →
      lineComment.test line = false → f.isLineComment = 0 →
      blockCommentOpen.test line = false → blockCommentClose.test line = false →
      f.isBlockComment = 0 → f.isComment = 0 →
      f.longLine = 0 → f.continueLine = 0 →
      ellipsis.test (cleanLineFromStringsAndComments line) = false →
      ctrlIgnore.test line = false →
      f.matrix = 0 → cellIndent cfg line '[' ']' 0 = (d, ind) → d ≠ 0 →
      formatLine cfg f line =
        ({ f with matrix := ind }, 0, indent cfg f 0 ++ trimSpace (format cfg line))) ∧
    (∀ (cfg : Cfg) (f : Fmt) (line : List Char) (d ind : Int),
      f.ignoreLines = 0 →
      lineComment.test line = false → f.isLineComment = 0 →
      blockCommentOpen.test line = false → blockCommentClose.test line = false →
      f.isBlockComment = 0 → f.isComment = 0 →
      f.longLine = 0 → f.continueLine = 0 →
      ellipsis.test (cleanLineFromStringsAndComments line) = false →
      ctrlIgnore.test line = false →
      f.matrix ≠ 0 → cellIndent cfg line '[' ']' f.matrix = (d, ind) →
      formatLine cfg f line =
        ({ f with matrix := ind }, 0,
          indent cfg f f.matrix ++ trimSpace (format cfg line))) := by
  refine ⟨?_, ?_, ?_, ?_⟩
  · intro cfg line o c ind m h1 h2 h3
    exact cellIndent_open_aligned cfg line o c ind m h1 h2 h3
  · intro cfg line o c ind m h1 h2 h3
    exact cellIndent_open_simple cfg line o c ind m h1 h2 h3
  · intro cfg f line d ind hig hLC hlc hBO hBCc hbc hic hll hct hS2 hCI hmx hM hd
    rw [formatLine_noComment cfg f line hig hLC hlc hBO hBCc hbc hic hll hct hS2]
    exact classifyEmit_matrix_open cfg f line d ind (le_of_eq hbc) (by rw [hlc]; decide)
      hCI hmx hM hd
  · intro cfg f line d ind hig hLC hlc hBO hBCc hbc hic hll hct hS2 hCI hmx hM
    rw [formatLine_noComment cfg f line hig hLC hlc hBO hBCc hbc hic hll hct hS2]
    exact classifyEmit_matrix_cont cfg f line d ind (le_of_eq hbc) (by rw [hlc]; decide)
      hCI hmx hM

/-- Witness for C7: `A =  [1;` (two spaces before the bracket) opens a region
with aligned indent 6 = len("A =  ")+1 and is emitted normalized; `2];` at
tracked indent 6 closes it, emitted at 6 spaces. -/
theorem matrix_region_tracking_wit :
    cellIndent cfgD "A =  [1;".data '[' ']' 0 = (1, 6) ∧
    formatLine cfgD resetState "A =  [1;".data =
      ({ resetState with matrix := 6 }, 0, "A = [1;".data) ∧
    formatLine cfgD { resetState with matrix := 6 } "2];".data =
      ({ resetState with matrix := 0 }, 0, "      2];".data) := by
  refine ⟨?_, ?_, ?_⟩
  · have h := matrix_region_tracking.1 cfgD "A =  [1;".data '[' ']' 0
      (((cellPat '[').reMatch (cleanLineFromStringsAndComments "A =  [1;".data)).getD [])
      rfl (by decide) rfl
    exact h.trans (by rfl)
  · have h := matrix_region_tracking.2.2.1 cfgD resetState "A =  [1;".data 1 6
      rfl rfl rfl rfl rfl rfl rfl rfl rfl rfl rfl rfl rfl (by decide)
    exact h.trans (by rfl)
  · have h := matrix_region_tracking.2.2.2 cfgD { resetState with matrix := 6 } "2];".data
      (-1) 0 rfl rfl rfl rfl rfl rfl rfl rfl rfl rfl rfl (by decide) (by rfl)
    exact h.trans (by rfl)

theorem classifyEmit_ignore_directive (cfg : Cfg) (f : Fmt) (line : List Char) (m : Caps)
    (hbc : f.isBlockComment ≤ 0) (hlc : f.isLineComment = 2)
    (hm : ignoreCommand.reMatch line = some m) :
    (getG m 1 = [] →
      classifyEmit cfg f line =
        ({ f with ignoreLines := 1 }, 0, indent cfg f 0 ++ trimSpace line)) ∧
    (getG m 1 ≠ [] → natOfDigits (getG m 1) ≤ maxInt64 →
      classifyEmit cfg f line =
        ({ f with ignoreLines := ((max (natOfDigits (getG m 1)) 1 : Nat) : Int) }, 0,
          indent cfg f 0 ++ trimSpace line)) := by
  obtain ⟨lv, is0, fs0, mx, ce, bc, lc, lg, ct, ic, ig⟩ := f
  simp only at hbc hlc
  subst hlc
  unfold classifyEmit
  constructor
  · intro hg
    simp [not_lt.mpr hbc, hm, hg, indent]
  · intro hg hb
    rcases Nat.lt_or_ge 1 (natOfDigits (getG m 1)) with h | h
    · simp [not_lt.mpr hbc, hm, hg, hb, h, indent, Nat.max_eq_left (le_of_lt h)]
    · simp [not_lt.mpr hbc, hm, hg, hb, not_lt.mpr h, indent, Nat.max_eq_right h]

/-- C8 (amended): a line-comment line matched by the ignore-directive pattern
sets the ignore counter to `max(N, 1)` — to 1 when the digit group is empty
(which requires whitespace after `ignore` to match at all) — and is itself
emitted at the current indent with its outer whitespace trimmed; while the
counter is positive, each subsequent (nonblank) processed line decrements the
counter and is emitted as the current indent followed by its
whitespace-trimmed content. -/
theorem ignore_directive_behavior :
    (∀ (cfg : Cfg) (f : Fmt) (line : List Char) (m : Caps),
      f.ignoreLines = 0 →
      lineComment.test line = true →
      blockCommentOpen.test line = false → blockCommentClose.test line = false →
      f.isBlockComment = 0 → f.isComment = 0 →
      f.longLine = 0 → f.continueLine = 0 →
      ignoreCommand.reMatch line = some m →
      getG m 1 ≠ [] → natOfDigits (getG m 1) ≤ maxInt64 →
      formatLine cfg f line =
        ({ f with isLineComment := 2, ignoreLines := ((max (natOfDigits (getG m 1)) 1 : Nat) : Int) }, 0,
          indent cfg f 0 ++ trimSpace line)) ∧
    (∀ (cfg : Cfg) (f : Fmt) (line : List Char),
      0 < f.ignoreLines →
      formatLine cfg f line =
        ({ f with ignoreLines := f.ignoreLines - 1 }, 0,
          indent cfg f 0 ++ trimSpace line)) := by
  constructor
  · intro cfg f line m hig hLC hBO hBCc hbc hic hll hct hm hg hb
    rw [formatLine_comment cfg f line hig hLC hBO hBCc hbc hic hll hct]
    have h := (classifyEmit_ignore_directive cfg { f with isLineComment := 2 } line m
      (le_of_eq hbc) rfl hm).2 hg hb
    exact h.trans (by rfl)
  · intro cfg f line h
    unfold formatLine
    rw [if_pos h]

/-- Witness for C8: the directive `% formatter ignore 2` inside an `if` block
(running level 1) sets the counter to 2 and is emitted at indent 4; the next
line is passed through trimmed at indent 4, decrementing the counter. -/
theorem ignore_directive_behavior_wit :
    formatLine cfgD { resetState with ilvl := 1 } "% formatter ignore 2".data =
      ({ resetState with ilvl := 1, isLineComment := 2, ignoreLines := 2 }, 0,
        "    % formatter ignore 2".data) ∧
    formatLine cfgD { resetState with ilvl := 1, ignoreLines := 2 } "  a  =1".data =
      ({ resetState with ilvl := 1, ignoreLines := 1 }, 0, "    a  =1".data) := by
  constructor
  · have h := ignore_directive_behavior.1 cfgD { resetState with ilvl := 1 }
      "% formatter ignore 2".data
      ((ignoreCommand.reMatch "% formatter ignore 2".data).getD [])
      rfl rfl rfl rfl rfl rfl rfl rfl rfl (by decide) (by decide)
    exact h.trans (by rfl)
  · have h := ignore_directive_behavior.2 cfgD { resetState with ilvl := 1, ignoreLines := 2 }
      "  a  =1".data (by decide)
    exact h.trans (by rfl)

/-- C10: while the ignore-line counter is positive, processing a line changes
no engine state other than decrementing that counter — stacks, matrix/cell
indents, comment flags and continuation flags are untouched whatever the line
contains — and the line is emitted as the current indent followed by its
whitespace-trimmed content, with offset 0. -/
theorem ignored_line_frame (cfg : Cfg) (f : Fmt) (l : List Char) (h : 0 < f.ignoreLines) :
    formatLine cfg f l =
      ({ f with ignoreLines := f.ignoreLines - 1 }, 0, indent cfg f 0 ++ trimSpace l) := by
  unfold formatLine
  rw [if_pos h]

/-- Witness for C10: an ignored line containing a block-comment opener, an
opener keyword, an ellipsis and an `end` changes nothing but the counter. -/
theorem ignored_line_frame_wit :
    formatLine cfgD
      { resetState with ilvl := 1, istep := [1], matrix := 3, ignoreLines := 2 }
      " %\x7b if x ... end ".data =
      ({ resetState with ilvl := 1, istep := [1], matrix := 3, ignoreLines := 1 }, 0,
        "    %\x7b if x ... end".data) := by
  have h := ignored_line_frame cfgD
    { resetState with ilvl := 1, istep := [1], matrix := 3, ignoreLines := 2 }
    " %\x7b if x ... end ".data (by decide)
  exact h.trans (by rfl)

end MatlabFmt

namespace MatlabFmt

/-- C4 (amended): when both quoted-string patterns match a fragment, the
extractor selects the match whose quoted-string group is the LONGER of the
two (the single-quote match wins ties): the selected token's length is the
maximum of the two group lengths, the double-quote match is taken exactly
when its group is strictly longer, and the single-quote match otherwise. -/
theorem string_extraction_longest (part : List Char) (c c2 : Caps)
    (h : pString.reMatch part = some c) (h2 : pStringDQ.reMatch part = some c2) :
    (extractStringOrComment part).map (fun t => t.2.1.length) =
      some (max (getG c 2).length (getG c2 2).length) ∧
    ((getG c 2).length < (getG c2 2).length →
      extractStringOrComment part = some (getG c2 1, getG c2 2, getG c2 4)) ∧
    (¬ (getG c 2).length < (getG c2 2).length →
      extractStringOrComment part = some (getG c 1, getG c 2, getG c 4)) := by
  unfold extractStringOrComment
  by_cases hlt : (getG c 2).length < (getG c2 2).length
  · refine ⟨?_, fun _ => ?_, fun hc => absurd hlt hc⟩
    · simp [h, h2, hlt, Nat.max_eq_right (le_of_lt hlt)]
    · simp [h, h2, hlt]
  · refine ⟨?_, fun hc => absurd hc hlt, fun _ => ?_⟩
    · simp [h, h2, hlt, Nat.max_eq_left (not_lt.mp hlt)]
    · simp [h, h2, hlt]

/-- Witness for C4: on `('a', "bcdef")` the double-quote group (length 7) is
longer than the single-quote group (length 3), so the extractor returns the
double-quoted token. -/
theorem string_extraction_longest_wit :
    extractStringOrComment sTieInput =
      some ("('a',".data, "\"bcdef\"".data, ")".data) := by
  have h := (string_extraction_longest sTieInput
    ((pString.reMatch sTieInput).getD []) ((pStringDQ.reMatch sTieInput).getD [])
    rfl rfl).2.1 (by decide)
  exact h.trans (by rfl)

end MatlabFmt

namespace MatlabFmt

/-- C3 (amended): with block separation on, the driver inserts the blank line
BEFORE an opener (positive offset) — skipped when the previous emitted line
is already blank or a line comment is pending — and AFTER a closer (negative
offset); around a closer no blank is inserted in front, and the emitted blank
sets the blank flag so it is never duplicated. -/
theorem blank_separation_placement (cfg : Cfg) (f f1 : Fmt) (blank : Bool)
    (l : List Char) (rest : List (List Char)) (off : Int) (out : List Char)
    (hsep : cfg.separateBlock = true) (hnb : trimSpace l ≠ [])
    (hfl : formatLine cfg f l = (f1, off, out)) :
    (off < 0 →
      procSeg cfg f blank (l :: rest) =
        trimRightNL out :: ([] : List Char) ::
          procSeg cfg { f1 with ilvl := if f1.ilvl + off < 0 then 0 else f1.ilvl + off }
            true rest) ∧
    (0 < off → blank = false → f1.isLineComment = 0 →
      procSeg cfg f blank (l :: rest) =
        ([] : List Char) :: trimRightNL out ::
          procSeg cfg { f1 with ilvl := if f1.ilvl + off < 0 then 0 else f1.ilvl + off }
            false rest) ∧
    (0 < off → (blank = true ∨ f1.isLineComment ≠ 0) →
      procSeg cfg f blank (l :: rest) =
        trimRightNL out ::
          procSeg cfg { f1 with ilvl := if f1.ilvl + off < 0 then 0 else f1.ilvl + off }
            false rest) := by
  refine ⟨?_, ?_, ?_⟩
  · intro hoff
    simp [procSeg, hnb, hfl, hsep, hoff, lt_asymm hoff]
  · intro hoff hbl hlc
    simp [procSeg, hnb, hfl, hsep, hoff, hbl, hlc, lt_asymm hoff]
  · intro hoff hor
    rcases hor with hb | hlc
    · subst hb
      simp [procSeg, hnb, hfl, hsep, lt_asymm hoff]
    · simp [procSeg, hnb, hfl, hsep, hlc, lt_asymm hoff]

/-- Witness for C3: a dangling `end` (offset −1) is emitted followed by a
blank; an `if` opener (offset +1) after nonblank output is preceded by a
blank. -/
theorem blank_separation_placement_wit :
    procSeg cfgD { resetState with ilvl := 1, istep := [1] } false ["end".data] =
      ["end".data, ([] : List Char)] ∧
    procSeg cfgD resetState false ["if x".data] =
      [([] : List Char), "if x".data] := by
  constructor
  · have h := (blank_separation_placement cfgD { resetState with ilvl := 1, istep := [1] }
      { resetState with ilvl := 1 } false "end".data [] (-1) "end ".data
      rfl (by decide) (by rfl)).1 (by decide)
    exact h.trans (by rfl)
  · have h := (blank_separation_placement cfgD resetState
      { resetState with istep := [1] } false "if x".data [] 1 "if x".data
      rfl (by decide) (by rfl)).2.1 (by decide) rfl rfl
    exact h.trans (by rfl)

end MatlabFmt

namespace MatlabFmt

theorem classifyEmit_default (cfg : Cfg) (f : Fmt) (line : List Char)
    (hbc : f.isBlockComment ≤ 0) (hlc : f.isLineComment ≠ 2)
    (hCI : ctrlIgnore.test line = false)
    (hmx : f.matrix = 0) (hcl : f.cell = 0)
    (hM : cellIndent cfg line '[' ']' 0 = (0, 0))
    (hC : cellIndent cfg line '\x7b' '\x7d' 0 = (0, 0))
    (h1 : ctrl1Line.reMatch line = none) (h2 : fcnStart.reMatch line = none)
    (h3 : ctrlStart.reMatch line = none) (h4 : ctrlStartSwitch.reMatch line = none)
    (h5 : ctrlCont.reMatch line = none) (h6 : ctrlEnd.reMatch line = none) :
    classifyEmit cfg f line = (f, 0, indent cfg f 0 ++ trimSpace (format cfg line)) := by
  obtain ⟨lv, is0, fs0, mx, ce, bc, lc, lg, ct, ic, ig⟩ := f
  simp only at hbc hlc hmx hcl
  subst hmx hcl
  unfold classifyEmit
  simp [hCI, hM, hC, h1, h2, h3, h4, h5, h6, not_lt.mpr hbc, hlc]

theorem indent_eq_replicate (cfg : Cfg) (f : Fmt)
    (h0 : 0 ≤ (f.ilvl + f.continueLine) * cfg.iwidth) :
    indent cfg f 0 = List.replicate ((f.ilvl + f.continueLine) * cfg.iwidth).toNat ' ' := by
  unfold indent
  rcases lt_or_eq_of_le h0 with h | h
  · rw [if_neg (by omega)]
    simp
  · rw [if_pos (by omega)]
    rw [← h]
    simp

/-- C2 (amended): the formatted output is the original prefix, the formatted
segment and the original suffix — every line outside the selected range is
byte-identical to the input; and the leading whitespace of the first selected
line sets the initial running indent level to `⌊len(ws) / indentWidth⌋`, so a
plain first selected line is emitted with its original indent rounded down to
a multiple of the indent width. -/
theorem partial_range_frame :
    (∀ (cfg : Cfg) (lines : List (List Char)), ∃ seg,
      FormatLines cfg lines =
        lines.take (startIdxOf cfg lines) ++ seg ++ lines.drop (endIdxOf cfg lines)) ∧
    (∀ (cfg : Cfg) (lines : List (List Char)) (l0 : List Char)
        (rest : List (List Char)) (m : Caps),
      0 < cfg.iwidth →
      startIdxOf cfg lines < endIdxOf cfg lines →
      endIdxOf cfg lines ≠ lines.length →
      (lines.drop (startIdxOf cfg lines)).take (endIdxOf cfg lines - startIdxOf cfg lines)
        = l0 :: rest →
      initialIndent.reMatch l0 = some m →
      trimSpace (getG m 2) ≠ [] →
      lineComment.test (getG m 2) = false →
      blockCommentOpen.test (getG m 2) = false →
      blockCommentClose.test (getG m 2) = false →
      ellipsis.test (cleanLineFromStringsAndComments (getG m 2)) = false →
      ctrlIgnore.test (getG m 2) = false →
      cellIndent cfg (getG m 2) '[' ']' 0 = (0, 0) →
      cellIndent cfg (getG m 2) '\x7b' '\x7d' 0 = (0, 0) →
      ctrl1Line.reMatch (getG m 2) = none → fcnStart.reMatch (getG m 2) = none →
      ctrlStart.reMatch (getG m 2) = none → ctrlStartSwitch.reMatch (getG m 2) = none →
      ctrlCont.reMatch (getG m 2) = none → ctrlEnd.reMatch (getG m 2) = none →
      ∃ t, FormatLines cfg lines =
        lines.take (startIdxOf cfg lines) ++
          (trimRightNL (List.replicate
              ((getG m 1).length / cfg.iwidth.toNat * cfg.iwidth.toNat) ' '
            ++ trimSpace (format cfg (getG m 2))) :: t) ++
          lines.drop (endIdxOf cfg lines)) := by
  constructor
  · intro cfg lines
    by_cases h : startIdxOf cfg lines = endIdxOf cfg lines
    · refine ⟨[], ?_⟩
      unfold FormatLines
      rw [if_pos h, h]
      simp [List.take_append_drop]
    · simp only [FormatLines, if_neg h]
      exact ⟨_, rfl⟩
  · intro cfg lines l0 rest m hiw hrange hend hseg hm hnb hLC hBO hBCc hS2 hCI hM hC
      h1 h2 h3 h4 h5 h6
    have hne : ¬ startIdxOf cfg lines = endIdxOf cfg lines := Nat.ne_of_lt hrange
    have hw : cfg.iwidth = (cfg.iwidth.toNat : Int) :=
      (Int.toNat_of_nonneg (le_of_lt hiw)).symm
    have hfl : formatLine cfg
        { resetState with ilvl := (((getG m 1).length / cfg.iwidth.toNat : Nat) : Int) }
        (getG m 2) =
        ({ resetState with ilvl := (((getG m 1).length / cfg.iwidth.toNat : Nat) : Int) }, 0,
          indent cfg { resetState with
            ilvl := (((getG m 1).length / cfg.iwidth.toNat : Nat) : Int) } 0
            ++ trimSpace (format cfg (getG m 2))) := by
      have hlcne : (0 : Int) ≠ 2 := by decide
      rw [formatLine_noComment cfg
        { resetState with ilvl := (((getG m 1).length / cfg.iwidth.toNat : Nat) : Int) }
        (getG m 2) rfl hLC rfl hBO hBCc rfl rfl rfl rfl hS2]
      exact classifyEmit_default cfg
        { resetState with ilvl := (((getG m 1).length / cfg.iwidth.toNat : Nat) : Int) }
        (getG m 2) (le_refl 0) hlcne hCI rfl rfl hM hC h1 h2 h3 h4 h5 h6
    have hind : indent cfg { resetState with
        ilvl := (((getG m 1).length / cfg.iwidth.toNat : Nat) : Int) } 0 =
        List.replicate ((getG m 1).length / cfg.iwidth.toNat * cfg.iwidth.toNat) ' ' := by
      rw [indent_eq_replicate cfg
        { resetState with ilvl := (((getG m 1).length / cfg.iwidth.toNat : Nat) : Int) }
        (by
          show 0 ≤ ((((getG m 1).length / cfg.iwidth.toNat : Nat) : Int) + 0) * cfg.iwidth
          rw [add_zero]
          exact mul_nonneg (Int.natCast_nonneg _) (le_of_lt hiw))]
      congr 1
      show (((((getG m 1).length / cfg.iwidth.toNat : Nat) : Int) + 0) * cfg.iwidth).toNat = _
      generalize hg : cfg.iwidth.toNat = wN at hw ⊢
      rw [add_zero, hw, ← Int.natCast_mul, Int.toNat_natCast]
    refine ⟨procSeg cfg { resetState with
        ilvl := (((getG m 1).length / cfg.iwidth.toNat : Nat) : Int) } false rest, ?_⟩
    unfold FormatLines
    rw [if_neg hne]
    simp only [hseg, hm]
    rw [if_neg (by simp : ¬ (l0 :: rest = ([] : List (List Char))))]
    simp only [procSeg, hnb, if_neg hnb, hm, hfl, hind, add_zero]
    have hq0 : ¬ ((((getG m 1).length / cfg.iwidth.toNat : Nat) : Int) < 0) :=
      not_lt.mpr (Int.natCast_nonneg _)
    simp only [hq0, lt_irrefl, and_false, false_and, if_false, if_neg hend,
      List.cons_ne_nil, List.nil_append, ne_eq, not_false_eq_true]



/-- Witness for C2: the frame holds on a concrete input, and selecting only
line 1 of `["  x", "tail"]` (leading indent 2, width 4) emits `x` at indent
`2/4*4 = 0` while leaving `tail` untouched. -/
theorem partial_range_frame_wit :
    (∃ seg, FormatLines cfgD (strLines ["  a  = b"]) =
      (strLines ["  a  = b"]).take (startIdxOf cfgD (strLines ["  a  = b"])) ++ seg ++
        (strLines ["  a  = b"]).drop (endIdxOf cfgD (strLines ["  a  = b"]))) ∧
    (∃ t, FormatLines cfgEnd1 (strLines ["  x", "tail"]) =
      "x".data :: t ++ ["tail".data]) := by
  constructor
  · exact partial_range_frame.1 cfgD (strLines ["  a  = b"])
  · obtain ⟨t, ht⟩ := partial_range_frame.2 cfgEnd1 (strLines ["  x", "tail"]) "  x".data []
      ((initialIndent.reMatch "  x".data).getD []) (by decide) (by decide) (by decide)
      (by rfl) rfl (by decide) rfl rfl rfl rfl rfl (by rfl) (by rfl) rfl rfl rfl rfl rfl rfl
    exact ⟨t, ht.trans (by rfl)⟩

end MatlabFmt

namespace MatlabFmt

/-- The prefix of a split recovered by a length-difference `take`. -/
theorem take_pref (s1 s2 : List Char) :
    (s1 ++ s2).take ((s1 ++ s2).length - s2.length) = s1 := by
  rw [List.length_append, Nat.add_sub_cancel, List.take_left]

/-- The matcher is sound for the declarative relation `RM`: any successful run
splits the input into a matched prefix and a remainder handed (with the new
capture bindings) to the continuation. -/
theorem mrun_sound :
    ∀ (fuel : Nat) (re : Re) (s : List Char) (caps : Caps)
      (k : List Char → Caps → Option Caps) (r : Caps),
      Re.mrun fuel re s caps k = some r →
      ∃ s1 s2 Δ, s = s1 ++ s2 ∧ RM re s1 Δ ∧ k s2 (Δ ++ caps) = some r := by
  intro fuel
  induction fuel with
  | zero => intro re s caps k r h; simp [Re.mrun] at h
  | succ n ih =>
    intro re s caps k r h
    cases re with
    | emp =>
      exact ⟨[], s, [], rfl, RM.emp, by simpa [Re.mrun] using h⟩
    | chP p =>
      cases s with
      | nil => simp [Re.mrun] at h
      | cons c s' =>
        by_cases hp : p c = true
        · refine ⟨[c], s', [], rfl, RM.chP hp, ?_⟩
          simpa [Re.mrun, hp] using h
        · simp [Re.mrun, hp] at h
    | cat a b =>
      simp only [Re.mrun] at h
      obtain ⟨s1, s2, D1, hs, hm1, hk1⟩ := ih a s caps _ r h
      obtain ⟨s3, s4, D2, hs2, hm2, hk2⟩ := ih b s2 (D1 ++ caps) k r hk1
      exact ⟨s1 ++ s3, s4, D2 ++ D1, by rw [hs, hs2, List.append_assoc],
        RM.cat hm1 hm2, by rwa [List.append_assoc]⟩
    | alt a b =>
      simp only [Re.mrun] at h
      rcases hA : Re.mrun n a s caps k with _ | rA <;> simp only [hA] at h
      · obtain ⟨s1, s2, D, hs, hm, hk⟩ := ih b s caps k r h
        exact ⟨s1, s2, D, hs, RM.altR hm, hk⟩
      · obtain rfl : rA = r := Option.some.inj h
        obtain ⟨s1, s2, D, hs, hm, hk⟩ := ih a s caps k rA hA
        exact ⟨s1, s2, D, hs, RM.altL hm, hk⟩
    | starG a =>
      simp only [Re.mrun] at h
      rcases hA : Re.mrun n a s caps
          (fun s' c' => Re.mrun n (.starG a) s' c' k) with _ | rA <;>
        simp only [hA] at h
      · exact ⟨[], s, [], rfl, RM.starNil, by simpa using h⟩
      · obtain rfl : rA = r := Option.some.inj h
        obtain ⟨s1, s2, D1, hs, hm1, hk1⟩ := ih a s caps _ rA hA
        obtain ⟨s3, s4, D2, hs2, hm2, hk2⟩ := ih (.starG a) s2 (D1 ++ caps) k rA hk1
        exact ⟨s1 ++ s3, s4, D2 ++ D1, by rw [hs, hs2, List.append_assoc],
          RM.starCons hm1 hm2, by rwa [List.append_assoc]⟩
    | starL a =>
      simp only [Re.mrun] at h
      rcases hK : k s caps with _ | rK <;> simp only [hK] at h
      · obtain ⟨s1, s2, D1, hs, hm1, hk1⟩ := ih a s caps _ r h
        obtain ⟨s3, s4, D2, hs2, hm2, hk2⟩ := ih (.starL a) s2 (D1 ++ caps) k r hk1
        exact ⟨s1 ++ s3, s4, D2 ++ D1, by rw [hs, hs2, List.append_assoc],
          RM.starLCons hm1 hm2, by rwa [List.append_assoc]⟩
      · obtain rfl : rK = r := Option.some.inj h
        exact ⟨[], s, [], rfl, RM.starLNil, by simpa using hK⟩
    | optG a =>
      simp only [Re.mrun] at h
      rcases hA : Re.mrun n a s caps k with _ | rA <;> simp only [hA] at h
      · exact ⟨[], s, [], rfl, RM.optNone, by simpa using h⟩
      · obtain rfl : rA = r := Option.some.inj h
        obtain ⟨s1, s2, D, hs, hm, hk⟩ := ih a s caps k rA hA
        exact ⟨s1, s2, D, hs, RM.optSome hm, hk⟩
    | grp i a =>
      simp only [Re.mrun] at h
      obtain ⟨s1, s2, D, hs, hm, hk⟩ := ih a s caps _ r h
      subst hs
      rw [take_pref] at hk
      exact ⟨s1, s2, (i, s1) :: D, rfl, RM.grp hm, by rw [List.cons_append]; exact hk⟩

/-- A successful full match is a derivation of the declarative relation. -/
theorem reMatch_sound {re : Re} {s : List Char} {caps : Caps}
    (h : re.reMatch s = some caps) : RM re s caps := by
  unfold Re.reMatch at h
  obtain ⟨s1, s2, D, hs, hm, hk⟩ := mrun_sound _ _ _ _ _ _ h
  by_cases h2 : s2 = []
  · subst h2
    simp at hk
    subst hk
    rw [hs, List.append_nil]
    exact hm
  · simp [h2] at hk

/-- A pattern without capture groups produces no bindings. -/
theorem rm_gFree : ∀ {re : Re} {s : List Char} {c : Caps},
    RM re s c → re.gFree = true → c = [] := by
  intro re s c h
  induction h with
  | emp => intro _; rfl
  | chP _ => intro _; rfl
  | cat _ _ ih1 ih2 =>
    intro hg
    simp [Re.gFree] at hg
    rw [ih1 hg.1, ih2 hg.2]
    rfl
  | altL _ ih =>
    intro hg
    simp [Re.gFree] at hg
    exact ih hg.1
  | altR _ ih =>
    intro hg
    simp [Re.gFree] at hg
    exact ih hg.2
  | starNil => intro _; rfl
  | starCons _ _ ih1 ih2 =>
    intro hg
    simp [Re.gFree] at hg
    rw [ih1 hg, ih2 hg]
    rfl
  | starLNil => intro _; rfl
  | starLCons _ _ ih1 ih2 =>
    intro hg
    simp [Re.gFree] at hg
    rw [ih1 hg, ih2 hg]
    rfl
  | optNone => intro _; rfl
  | optSome _ ih =>
    intro hg
    simp [Re.gFree] at hg
    exact ih hg
  | grp _ _ =>
    intro hg
    simp [Re.gFree] at hg

/-- Every binding produced by a match carries a group index of the pattern. -/
theorem rm_gIdx : ∀ {re : Re} {s : List Char} {c : Caps},
    RM re s c → ∀ q ∈ c, q.1 ∈ re.gIdx := by
  intro re s c h
  induction h with
  | emp => intro q hq; simp at hq
  | chP _ => intro q hq; simp at hq
  | cat _ _ ih1 ih2 =>
    intro q hq
    simp [Re.gIdx]
    rcases List.mem_append.mp hq with hq | hq
    · exact Or.inr (ih2 q hq)
    · exact Or.inl (ih1 q hq)
  | altL _ ih =>
    intro q hq
    simp [Re.gIdx]
    exact Or.inl (ih q hq)
  | altR _ ih =>
    intro q hq
    simp [Re.gIdx]
    exact Or.inr (ih q hq)
  | starNil => intro q hq; simp at hq
  | starCons _ _ ih1 ih2 =>
    intro q hq
    rcases List.mem_append.mp hq with hq | hq
    · exact ih2 q hq
    · exact ih1 q hq
  | starLNil => intro q hq; simp at hq
  | starLCons _ _ ih1 ih2 =>
    intro q hq
    rcases List.mem_append.mp hq with hq | hq
    · exact ih2 q hq
    · exact ih1 q hq
  | optNone => intro q hq; simp at hq
  | optSome _ ih => intro q hq; exact ih q hq
  | grp _ ih =>
    intro q hq
    simp [Re.gIdx]
    rcases List.mem_cons.mp hq with hq | hq
    · subst hq; exact Or.inl rfl
    · exact Or.inr (ih q hq)

/-- Inversion for the empty pattern. -/
theorem rm_emp_inv {s : List Char} {c : Caps} (h : RM .emp s c) :
    s = [] ∧ c = [] := by
  cases h; exact ⟨rfl, rfl⟩

/-- Inversion for a character-class pattern. -/
theorem rm_chP_inv {p : Char → Bool} {s : List Char} {c : Caps}
    (h : RM (.chP p) s c) : ∃ x, s = [x] ∧ p x = true ∧ c = [] := by
  cases h with
  | chP hp => exact ⟨_, rfl, hp, rfl⟩

/-- Inversion for concatenation. -/
theorem rm_cat_inv {a b : Re} {s : List Char} {c : Caps}
    (h : RM (.cat a b) s c) :
    ∃ s1 s2 c1 c2, s = s1 ++ s2 ∧ c = c2 ++ c1 ∧ RM a s1 c1 ∧ RM b s2 c2 := by
  cases h with
  | cat h1 h2 => exact ⟨_, _, _, _, rfl, rfl, h1, h2⟩

/-- Inversion for a capture group. -/
theorem rm_grp_inv {i : Nat} {a : Re} {s : List Char} {c : Caps}
    (h : RM (.grp i a) s c) : ∃ c', c = (i, s) :: c' ∧ RM a s c' := by
  cases h with
  | grp h1 => exact ⟨_, rfl, h1⟩

end MatlabFmt

namespace MatlabFmt

/-- Group lookup at the most recent binding. -/
theorem getG_cons_hit (i : Nat) (v : List Char) (rest : Caps) :
    getG ((i, v) :: rest) i = v := by
  simp [getG]

/-- Group lookup skips a binding with a different index. -/
theorem getG_cons_miss {j i : Nat} (h : j ≠ i) (v : List Char) (rest : Caps) :
    getG ((j, v) :: rest) i = getG rest i := by
  unfold getG
  rw [List.find?_cons_of_neg]
  simp [h]

/-- Group lookup skips a block of bindings with other indices. -/
theorem getG_append_skip {c : Caps} {i : Nat} (h : ∀ q ∈ c, q.1 ≠ i)
    (rest : Caps) : getG (c ++ rest) i = getG rest i := by
  induction c with
  | nil => rfl
  | cons a c ih =>
    obtain ⟨j, v⟩ := a
    rw [List.cons_append,
      getG_cons_miss (h (j, v) (List.mem_cons_self _ _)) v (c ++ rest)]
    exact ih (fun q hq => h q (List.mem_cons_of_mem _ hq))

/-- The non-whitespace count is additive over concatenation. -/
theorem muNW_append (a b : List Char) : muNW (a ++ b) = muNW a + muNW b := by
  simp [muNW, List.filter_append]

/-- A non-whitespace head contributes one to the count. -/
theorem muNW_cons_nonws {x : Char} (h : isNonWs x = true) (t : List Char) :
    muNW (x :: t) = muNW t + 1 := by
  simp [muNW, List.filter_cons, h, Nat.add_comm]

/-- The count is bounded by the length. -/
theorem muNW_le_length (s : List Char) : muNW s ≤ s.length :=
  List.length_filter_le _ _

/-- The flattened measure respects a strict drop of the count. -/
theorem fmtMeasure_lt_of_mu {l s : List Char} (hm : muNW l < muNW s)
    (hl : l.length ≤ s.length) : fmtMeasure l < fmtMeasure s := by
  unfold fmtMeasure
  have e1 : muNW l * (l.length + 1) + l.length ≤
      muNW l * (s.length + 1) + s.length :=
    Nat.add_le_add (Nat.mul_le_mul_left _ (Nat.add_le_add_right hl 1)) hl
  have e2 : (muNW l + 1) * (s.length + 1) ≤ muNW s * (s.length + 1) :=
    Nat.mul_le_mul_right _ hm
  have e3 : muNW l * (s.length + 1) + s.length <
      (muNW l + 1) * (s.length + 1) := by
    have e : (muNW l + 1) * (s.length + 1) =
        muNW l * (s.length + 1) + s.length + 1 := by ring
    rw [e]
    exact Nat.lt_succ_self _
  exact lt_of_le_of_lt e1
    (lt_of_lt_of_le e3 (le_trans e2 (Nat.le_add_right _ _)))

/-- The flattened measure respects a strict drop of the length. -/
theorem fmtMeasure_lt_of_len {l s : List Char} (hm : muNW l ≤ muNW s)
    (hl : l.length < s.length) : fmtMeasure l < fmtMeasure s := by
  unfold fmtMeasure
  have e1 : muNW l * (l.length + 1) ≤ muNW s * (s.length + 1) :=
    Nat.mul_le_mul hm (Nat.add_le_add_right (le_of_lt hl) 1)
  exact lt_of_le_of_lt (Nat.add_le_add e1 (le_refl l.length))
    (Nat.add_lt_add_left hl _)

/-- The fuel chosen for `format` dominates the measure. -/
theorem fmtMeasure_lt_fuel (s : List Char) : fmtMeasure s < fmtFuel s := by
  unfold fmtMeasure fmtFuel
  have e1 : muNW s * (s.length + 1) ≤ s.length * (s.length + 1) :=
    Nat.mul_le_mul_right _ (muNW_le_length s)
  calc muNW s * (s.length + 1) + s.length
      ≤ s.length * (s.length + 1) + s.length := Nat.add_le_add_right e1 _
    _ < (s.length + 1) * (s.length + 1) := by
        have e2 : (s.length + 1) * (s.length + 1) =
            s.length * (s.length + 1) + s.length + 1 := by ring
        rw [e2]
        exact Nat.lt_succ_self _

end MatlabFmt

namespace MatlabFmt

/-- Shape of a match of `[lazyPre 1 p, wsS, grp 2 M2, wsS, grp 3 T]`:
the five-piece split with the three capture groups recovered. -/
theorem shape5 (p : Char → Bool) (M2 T : Re) (hM2 : M2.gFree = true)
    (hT : T.gFree = true) {s : List Char} {m : Caps}
    (h : (rCat [lazyPre 1 p, wsS, .grp 2 M2, wsS, .grp 3 T]).reMatch s = some m) :
    ∃ g1 w1 s2 w2 g3, s = g1 ++ (w1 ++ (s2 ++ (w2 ++ g3))) ∧
      getG m 1 = g1 ∧ getG m 2 = s2 ∧ getG m 3 = g3 ∧
      RM M2 s2 [] ∧ RM T g3 [] := by
  have hrm : RM (.cat (lazyPre 1 p) (.cat wsS (.cat (.grp 2 M2)
      (.cat wsS (.cat (.grp 3 T) .emp))))) s m := reMatch_sound h
  obtain ⟨g1, r1, cA, dA, hsA, hcA, h1, hr1⟩ := rm_cat_inv hrm
  obtain ⟨cAi, hcAi, h1i⟩ := rm_grp_inv h1
  have hzA : cAi = [] := rm_gFree h1i rfl
  subst hzA; subst hcAi
  obtain ⟨w1, r2, cB, dB, hsB, hcB, hwB, hr2⟩ := rm_cat_inv hr1
  have hzB : cB = [] := rm_gFree hwB rfl
  subst hzB
  obtain ⟨s2, r3, cC, dC, hsC, hcC, h2, hr3⟩ := rm_cat_inv hr2
  obtain ⟨cCi, hcCi, h2i⟩ := rm_grp_inv h2
  have hzC : cCi = [] := rm_gFree h2i hM2
  subst hzC; subst hcCi
  obtain ⟨w2, r4, cD, dD, hsD, hcD, hwD, hr4⟩ := rm_cat_inv hr3
  have hzD : cD = [] := rm_gFree hwD rfl
  subst hzD
  obtain ⟨g3, r5, cE, dE, hsE, hcE, h3, hr5⟩ := rm_cat_inv hr4
  obtain ⟨cEi, hcEi, h3i⟩ := rm_grp_inv h3
  have hzE : cEi = [] := rm_gFree h3i hT
  subst hzE; subst hcEi
  obtain ⟨hrF, hcF⟩ := rm_emp_inv hr5
  subst hrF; subst hcF
  subst hcE; subst hcD; subst hcC; subst hcB; subst hcA
  subst hsE; subst hsD; subst hsC; subst hsB; subst hsA
  refine ⟨g1, w1, s2, w2, g3, by simp, ?_, ?_, ?_, h2i, h3i⟩
  · have hm : ((((([] : Caps) ++ ((3, g3) :: [])) ++ []) ++ ((2, s2) :: [])) ++ [])
        ++ ((1, g1) :: []) = (3, g3) :: (2, s2) :: (1, g1) :: [] := by simp
    rw [hm, getG_cons_miss (by decide) _ _, getG_cons_miss (by decide) _ _,
      getG_cons_hit]
  · have hm : ((((([] : Caps) ++ ((3, g3) :: [])) ++ []) ++ ((2, s2) :: [])) ++ [])
        ++ ((1, g1) :: []) = (3, g3) :: (2, s2) :: (1, g1) :: [] := by simp
    rw [hm, getG_cons_miss (by decide) _ _, getG_cons_hit]
  · have hm : ((((([] : Caps) ++ ((3, g3) :: [])) ++ []) ++ ((2, s2) :: [])) ++ [])
        ++ ((1, g1) :: []) = (3, g3) :: (2, s2) :: (1, g1) :: [] := by simp
    rw [hm, getG_cons_hit]

end MatlabFmt

namespace MatlabFmt

/-- Shape of a match of `[lazyPre 1 p, grp 2 M2, grp 3 T]` (the multi-space
rule): the three-piece split with the groups recovered. -/
theorem shape3m (p : Char → Bool) (M2 T : Re) (hM2 : M2.gFree = true)
    (hT : T.gFree = true) {s : List Char} {m : Caps}
    (h : (rCat [lazyPre 1 p, .grp 2 M2, .grp 3 T]).reMatch s = some m) :
    ∃ g1 s2 g3, s = g1 ++ (s2 ++ g3) ∧
      getG m 1 = g1 ∧ getG m 2 = s2 ∧ getG m 3 = g3 ∧
      RM M2 s2 [] ∧ RM T g3 [] := by
  have hrm : RM (.cat (lazyPre 1 p) (.cat (.grp 2 M2) (.cat (.grp 3 T) .emp)))
      s m := reMatch_sound h
  obtain ⟨g1, r1, cA, dA, hsA, hcA, h1, hr1⟩ := rm_cat_inv hrm
  obtain ⟨cAi, hcAi, h1i⟩ := rm_grp_inv h1
  have hzA : cAi = [] := rm_gFree h1i rfl
  subst hzA; subst hcAi
  obtain ⟨s2, r2, cB, dB, hsB, hcB, h2, hr2⟩ := rm_cat_inv hr1
  obtain ⟨cBi, hcBi, h2i⟩ := rm_grp_inv h2
  have hzB : cBi = [] := rm_gFree h2i hM2
  subst hzB; subst hcBi
  obtain ⟨g3, r3, cC, dC, hsC, hcC, h3, hr3⟩ := rm_cat_inv hr2
  obtain ⟨cCi, hcCi, h3i⟩ := rm_grp_inv h3
  have hzC : cCi = [] := rm_gFree h3i hT
  subst hzC; subst hcCi
  obtain ⟨hrD, hcD⟩ := rm_emp_inv hr3
  subst hrD; subst hcD
  subst hcC; subst hcB; subst hcA
  subst hsC; subst hsB; subst hsA
  have hm : ((([] : Caps) ++ ((3, g3) :: [])) ++ ((2, s2) :: [])) ++ ((1, g1) :: [])
      = (3, g3) :: (2, s2) :: (1, g1) :: [] := by simp
  refine ⟨g1, s2, g3, by simp, ?_, ?_, ?_, h2i, h3i⟩
  · rw [hm, getG_cons_miss (by decide) _ _, getG_cons_miss (by decide) _ _,
      getG_cons_hit]
  · rw [hm, getG_cons_miss (by decide) _ _, getG_cons_hit]
  · rw [hm, getG_cons_hit]

/-- Shape of a match of `[grp 1 A, wsS, grp 2 M2]` (the comment rule). -/
theorem shape3c (A M2 : Re) (hA : A.gFree = true) (hM2 : M2.gFree = true)
    {s : List Char} {m : Caps}
    (h : (rCat [.grp 1 A, wsS, .grp 2 M2]).reMatch s = some m) :
    ∃ g1 w s2, s = g1 ++ (w ++ s2) ∧
      getG m 1 = g1 ∧ getG m 2 = s2 ∧ RM M2 s2 [] := by
  have hrm : RM (.cat (.grp 1 A) (.cat wsS (.cat (.grp 2 M2) .emp))) s m :=
    reMatch_sound h
  obtain ⟨g1, r1, cA, dA, hsA, hcA, h1, hr1⟩ := rm_cat_inv hrm
  obtain ⟨cAi, hcAi, h1i⟩ := rm_grp_inv h1
  have hzA : cAi = [] := rm_gFree h1i hA
  subst hzA; subst hcAi
  obtain ⟨w, r2, cB, dB, hsB, hcB, hwB, hr2⟩ := rm_cat_inv hr1
  have hzB : cB = [] := rm_gFree hwB rfl
  subst hzB
  obtain ⟨s2, r3, cC, dC, hsC, hcC, h2, hr3⟩ := rm_cat_inv hr2
  obtain ⟨cCi, hcCi, h2i⟩ := rm_grp_inv h2
  have hzC : cCi = [] := rm_gFree h2i hM2
  subst hzC; subst hcCi
  obtain ⟨hrD, hcD⟩ := rm_emp_inv hr3
  subst hrD; subst hcD
  subst hcC; subst hcB; subst hcA
  subst hsC; subst hsB; subst hsA
  have hm : ((([] : Caps) ++ ((2, s2) :: [])) ++ []) ++ ((1, g1) :: [])
      = (2, s2) :: (1, g1) :: [] := by simp
  refine ⟨g1, w, s2, by simp, ?_, ?_, h2i⟩
  · rw [hm, getG_cons_miss (by decide) _ _, getG_cons_hit]
  · rw [hm, getG_cons_hit]

/-- Shape of a match of `[lazyPre 1 p, wsS, grp 2 M2, grp j T]` (the string
rules, whose middle group may itself bind inner groups, and the unary-sign and
closer rules). -/
theorem shape4 (p : Char → Bool) (M2 T : Re) (j : Nat) (hj1 : j ≠ 1)
    (hj2 : j ≠ 2) (hT : T.gFree = true) (hI : ∀ n ∈ M2.gIdx, n ≠ 1)
    {s : List Char} {m : Caps}
    (h : (rCat [lazyPre 1 p, wsS, .grp 2 M2, .grp j T]).reMatch s = some m) :
    ∃ g1 w s2 g3 c2, s = g1 ++ (w ++ (s2 ++ g3)) ∧
      getG m 1 = g1 ∧ getG m 2 = s2 ∧ getG m j = g3 ∧
      RM M2 s2 c2 ∧ RM T g3 [] := by
  have hrm : RM (.cat (lazyPre 1 p) (.cat wsS (.cat (.grp 2 M2)
      (.cat (.grp j T) .emp)))) s m := reMatch_sound h
  obtain ⟨g1, r1, cA, dA, hsA, hcA, h1, hr1⟩ := rm_cat_inv hrm
  obtain ⟨cAi, hcAi, h1i⟩ := rm_grp_inv h1
  have hzA : cAi = [] := rm_gFree h1i rfl
  subst hzA; subst hcAi
  obtain ⟨w, r2, cB, dB, hsB, hcB, hwB, hr2⟩ := rm_cat_inv hr1
  have hzB : cB = [] := rm_gFree hwB rfl
  subst hzB
  obtain ⟨s2, r3, cC, dC, hsC, hcC, h2, hr3⟩ := rm_cat_inv hr2
  obtain ⟨c2, hcCi, h2i⟩ := rm_grp_inv h2
  subst hcCi
  obtain ⟨g3, r4, cD, dD, hsD, hcD, h3, hr4⟩ := rm_cat_inv hr3
  obtain ⟨cDi, hcDi, h3i⟩ := rm_grp_inv h3
  have hzD : cDi = [] := rm_gFree h3i hT
  subst hzD; subst hcDi
  obtain ⟨hrE, hcE⟩ := rm_emp_inv hr4
  subst hrE; subst hcE
  subst hcD; subst hcC; subst hcB; subst hcA
  subst hsD; subst hsC; subst hsB; subst hsA
  have hm : (((([] : Caps) ++ ((j, g3) :: [])) ++ ((2, s2) :: c2)) ++ [])
      ++ ((1, g1) :: []) = (j, g3) :: (2, s2) :: (c2 ++ ((1, g1) :: [])) := by
    simp
  refine ⟨g1, w, s2, g3, c2, by simp, ?_, ?_, ?_, h2i, h3i⟩
  · rw [hm, getG_cons_miss hj1 _ _, getG_cons_miss (by decide) _ _,
      getG_append_skip (fun q hq => hI q.1 (rm_gIdx h2i q hq)) _, getG_cons_hit]
  · rw [hm, getG_cons_miss hj2 _ _, getG_cons_hit]
  · rw [hm, getG_cons_hit]

/-- Shape of a match of `[grp 1 A, grp 2 M2, wsS, grp 3 T]` (the call and
opener rules). -/
theorem shape4b (A M2 T : Re) (hA : A.gFree = true) (hM2 : M2.gFree = true)
    (hT : T.gFree = true) {s : List Char} {m : Caps}
    (h : (rCat [.grp 1 A, .grp 2 M2, wsS, .grp 3 T]).reMatch s = some m) :
    ∃ g1 s2 w g3, s = g1 ++ (s2 ++ (w ++ g3)) ∧
      getG m 1 = g1 ∧ getG m 2 = s2 ∧ getG m 3 = g3 ∧
      RM M2 s2 [] ∧ RM T g3 [] := by
  have hrm : RM (.cat (.grp 1 A) (.cat (.grp 2 M2) (.cat wsS
      (.cat (.grp 3 T) .emp)))) s m := reMatch_sound h
  obtain ⟨g1, r1, cA, dA, hsA, hcA, h1, hr1⟩ := rm_cat_inv hrm
  obtain ⟨cAi, hcAi, h1i⟩ := rm_grp_inv h1
  have hzA : cAi = [] := rm_gFree h1i hA
  subst hzA; subst hcAi
  obtain ⟨s2, r2, cB, dB, hsB, hcB, h2, hr2⟩ := rm_cat_inv hr1
  obtain ⟨cBi, hcBi, h2i⟩ := rm_grp_inv h2
  have hzB : cBi = [] := rm_gFree h2i hM2
  subst hzB; subst hcBi
  obtain ⟨w, r3, cC, dC, hsC, hcC, hwC, hr3⟩ := rm_cat_inv hr2
  have hzC : cC = [] := rm_gFree hwC rfl
  subst hzC
  obtain ⟨g3, r4, cD, dD, hsD, hcD, h3, hr4⟩ := rm_cat_inv hr3
  obtain ⟨cDi, hcDi, h3i⟩ := rm_grp_inv h3
  have hzD : cDi = [] := rm_gFree h3i hT
  subst hzD; subst hcDi
  obtain ⟨hrE, hcE⟩ := rm_emp_inv hr4
  subst hrE; subst hcE
  subst hcD; subst hcC; subst hcB; subst hcA
  subst hsD; subst hsC; subst hsB; subst hsA
  have hm : (((([] : Caps) ++ ((3, g3) :: [])) ++ []) ++ ((2, s2) :: []))
      ++ ((1, g1) :: []) = (3, g3) :: (2, s2) :: (1, g1) :: [] := by simp
  refine ⟨g1, s2, w, g3, by simp, ?_, ?_, ?_, h2i, h3i⟩
  · rw [hm, getG_cons_miss (by decide) _ _, getG_cons_miss (by decide) _ _,
      getG_cons_hit]
  · rw [hm, getG_cons_miss (by decide) _ _, getG_cons_hit]
  · rw [hm, getG_cons_hit]

end MatlabFmt

namespace MatlabFmt

/-- Shape of a match of `[lazyPre 1 p, wsS, grp 2, grp 3, grp 4, grp 5]`
(the scientific-notation rule). -/
theorem shape6 (p : Char → Bool) (M2 M3 M4 T : Re) (hM2 : M2.gFree = true)
    (hM3 : M3.gFree = true) (hM4 : M4.gFree = true) (hT : T.gFree = true)
    {s : List Char} {m : Caps}
    (h : (rCat [lazyPre 1 p, wsS, .grp 2 M2, .grp 3 M3, .grp 4 M4,
        .grp 5 T]).reMatch s = some m) :
    ∃ g1 w s2 s3 s4 g5, s = g1 ++ (w ++ (s2 ++ (s3 ++ (s4 ++ g5)))) ∧
      getG m 1 = g1 ∧ getG m 2 = s2 ∧ getG m 3 = s3 ∧ getG m 4 = s4 ∧
      getG m 5 = g5 ∧ RM M3 s3 [] := by
  have hrm : RM (.cat (lazyPre 1 p) (.cat wsS (.cat (.grp 2 M2)
      (.cat (.grp 3 M3) (.cat (.grp 4 M4) (.cat (.grp 5 T) .emp)))))) s m :=
    reMatch_sound h
  obtain ⟨g1, r1, cA, dA, hsA, hcA, h1, hr1⟩ := rm_cat_inv hrm
  obtain ⟨cAi, hcAi, h1i⟩ := rm_grp_inv h1
  have hzA : cAi = [] := rm_gFree h1i rfl
  subst hzA; subst hcAi
  obtain ⟨w, r2, cB, dB, hsB, hcB, hwB, hr2⟩ := rm_cat_inv hr1
  have hzB : cB = [] := rm_gFree hwB rfl
  subst hzB
  obtain ⟨s2, r3, cC, dC, hsC, hcC, h2, hr3⟩ := rm_cat_inv hr2
  obtain ⟨cCi, hcCi, h2i⟩ := rm_grp_inv h2
  have hzC : cCi = [] := rm_gFree h2i hM2
  subst hzC; subst hcCi
  obtain ⟨s3, r4, cD, dD, hsD, hcD, h3, hr4⟩ := rm_cat_inv hr3
  obtain ⟨cDi, hcDi, h3i⟩ := rm_grp_inv h3
  have hzD : cDi = [] := rm_gFree h3i hM3
  subst hzD; subst hcDi
  obtain ⟨s4, r5, cE, dE, hsE, hcE, h4, hr5⟩ := rm_cat_inv hr4
  obtain ⟨cEi, hcEi, h4i⟩ := rm_grp_inv h4
  have hzE : cEi = [] := rm_gFree h4i hM4
  subst hzE; subst hcEi
  obtain ⟨g5, r6, cF, dF, hsF, hcF, h5, hr6⟩ := rm_cat_inv hr5
  obtain ⟨cFi, hcFi, h5i⟩ := rm_grp_inv h5
  have hzF : cFi = [] := rm_gFree h5i hT
  subst hzF; subst hcFi
  obtain ⟨hrG, hcG⟩ := rm_emp_inv hr6
  subst hrG; subst hcG
  subst hcF; subst hcE; subst hcD; subst hcC; subst hcB; subst hcA
  subst hsF; subst hsE; subst hsD; subst hsC; subst hsB; subst hsA
  have hm : ((((((([] : Caps) ++ ((5, g5) :: [])) ++ ((4, s4) :: []))
      ++ ((3, s3) :: [])) ++ ((2, s2) :: [])) ++ []) ++ ((1, g1) :: []))
      = (5, g5) :: (4, s4) :: (3, s3) :: (2, s2) :: (1, g1) :: [] := by simp
  refine ⟨g1, w, s2, s3, s4, g5, by simp, ?_, ?_, ?_, ?_, ?_, h3i⟩
  · rw [hm, getG_cons_miss (by decide) _ _, getG_cons_miss (by decide) _ _,
      getG_cons_miss (by decide) _ _, getG_cons_miss (by decide) _ _,
      getG_cons_hit]
  · rw [hm, getG_cons_miss (by decide) _ _, getG_cons_miss (by decide) _ _,
      getG_cons_miss (by decide) _ _, getG_cons_hit]
  · rw [hm, getG_cons_miss (by decide) _ _, getG_cons_miss (by decide) _ _,
      getG_cons_hit]
  · rw [hm, getG_cons_miss (by decide) _ _, getG_cons_hit]
  · rw [hm, getG_cons_hit]

/-- Shape of a match of `[lazyPre 1 p, wsS, grp 2, wsS, grp 3, wsS, grp 4]`
(the increment, dotted-power and combined-operator rules). -/
theorem shape7 (p : Char → Bool) (M2 M3 T : Re) (hM2 : M2.gFree = true)
    (hM3 : M3.gFree = true) (hT : T.gFree = true) {s : List Char} {m : Caps}
    (h : (rCat [lazyPre 1 p, wsS, .grp 2 M2, wsS, .grp 3 M3, wsS,
        .grp 4 T]).reMatch s = some m) :
    ∃ g1 w1 s2 w2 s3 w3 g4,
      s = g1 ++ (w1 ++ (s2 ++ (w2 ++ (s3 ++ (w3 ++ g4))))) ∧
      getG m 1 = g1 ∧ getG m 2 = s2 ∧ getG m 3 = s3 ∧ getG m 4 = g4 ∧
      RM M2 s2 [] ∧ RM M3 s3 [] ∧ RM T g4 [] := by
  have hrm : RM (.cat (lazyPre 1 p) (.cat wsS (.cat (.grp 2 M2) (.cat wsS
      (.cat (.grp 3 M3) (.cat wsS (.cat (.grp 4 T) .emp))))))) s m :=
    reMatch_sound h
  obtain ⟨g1, r1, cA, dA, hsA, hcA, h1, hr1⟩ := rm_cat_inv hrm
  obtain ⟨cAi, hcAi, h1i⟩ := rm_grp_inv h1
  have hzA : cAi = [] := rm_gFree h1i rfl
  subst hzA; subst hcAi
  obtain ⟨w1, r2, cB, dB, hsB, hcB, hwB, hr2⟩ := rm_cat_inv hr1
  have hzB : cB = [] := rm_gFree hwB rfl
  subst hzB
  obtain ⟨s2, r3, cC, dC, hsC, hcC, h2, hr3⟩ := rm_cat_inv hr2
  obtain ⟨cCi, hcCi, h2i⟩ := rm_grp_inv h2
  have hzC : cCi = [] := rm_gFree h2i hM2
  subst hzC; subst hcCi
  obtain ⟨w2, r4, cD, dD, hsD, hcD, hwD, hr4⟩ := rm_cat_inv hr3
  have hzD : cD = [] := rm_gFree hwD rfl
  subst hzD
  obtain ⟨s3, r5, cE, dE, hsE, hcE, h3, hr5⟩ := rm_cat_inv hr4
  obtain ⟨cEi, hcEi, h3i⟩ := rm_grp_inv h3
  have hzE : cEi = [] := rm_gFree h3i hM3
  subst hzE; subst hcEi
  obtain ⟨w3, r6, cF, dF, hsF, hcF, hwF, hr6⟩ := rm_cat_inv hr5
  have hzF : cF = [] := rm_gFree hwF rfl
  subst hzF
  obtain ⟨g4, r7, cG, dG, hsG, hcG, h4, hr7⟩ := rm_cat_inv hr6
  obtain ⟨cGi, hcGi, h4i⟩ := rm_grp_inv h4
  have hzG : cGi = [] := rm_gFree h4i hT
  subst hzG; subst hcGi
  obtain ⟨hrH, hcH⟩ := rm_emp_inv hr7
  subst hrH; subst hcH
  subst hcG; subst hcF; subst hcE; subst hcD; subst hcC; subst hcB; subst hcA
  subst hsG; subst hsF; subst hsE; subst hsD; subst hsC; subst hsB; subst hsA
  have hm : (((((((([] : Caps) ++ ((4, g4) :: [])) ++ []) ++ ((3, s3) :: []))
      ++ []) ++ ((2, s2) :: [])) ++ []) ++ ((1, g1) :: []))
      = (4, g4) :: (3, s3) :: (2, s2) :: (1, g1) :: [] := by simp
  refine ⟨g1, w1, s2, w2, s3, w3, g4, by simp, ?_, ?_, ?_, ?_, h2i, h3i, h4i⟩
  · rw [hm, getG_cons_miss (by decide) _ _, getG_cons_miss (by decide) _ _,
      getG_cons_miss (by decide) _ _, getG_cons_hit]
  · rw [hm, getG_cons_miss (by decide) _ _, getG_cons_miss (by decide) _ _,
      getG_cons_hit]
  · rw [hm, getG_cons_miss (by decide) _ _, getG_cons_hit]
  · rw [hm, getG_cons_hit]

end MatlabFmt

namespace MatlabFmt

/-- Shape of a match of
`[lazyPre 1 p, wsS, grp 2, wsS, grp 3, wsS, grp 4, grp 5]` (the rational
rule). -/
theorem shape8 (p : Char → Bool) (M2 M3 M4 T : Re) (hM2 : M2.gFree = true)
    (hM3 : M3.gFree = true) (hM4 : M4.gFree = true) (hT : T.gFree = true)
    {s : List Char} {m : Caps}
    (h : (rCat [lazyPre 1 p, wsS, .grp 2 M2, wsS, .grp 3 M3, wsS, .grp 4 M4,
        .grp 5 T]).reMatch s = some m) :
    ∃ g1 w1 s2 w2 s3 w3 s4 g5,
      s = g1 ++ (w1 ++ (s2 ++ (w2 ++ (s3 ++ (w3 ++ (s4 ++ g5)))))) ∧
      getG m 1 = g1 ∧ getG m 2 = s2 ∧ getG m 3 = s3 ∧ getG m 4 = s4 ∧
      getG m 5 = g5 ∧ RM M3 s3 [] := by
  have hrm : RM (.cat (lazyPre 1 p) (.cat wsS (.cat (.grp 2 M2) (.cat wsS
      (.cat (.grp 3 M3) (.cat wsS (.cat (.grp 4 M4)
        (.cat (.grp 5 T) .emp)))))))) s m := reMatch_sound h
  obtain ⟨g1, r1, cA, dA, hsA, hcA, h1, hr1⟩ := rm_cat_inv hrm
  obtain ⟨cAi, hcAi, h1i⟩ := rm_grp_inv h1
  have hzA : cAi = [] := rm_gFree h1i rfl
  subst hzA; subst hcAi
  obtain ⟨w1, r2, cB, dB, hsB, hcB, hwB, hr2⟩ := rm_cat_inv hr1
  have hzB : cB = [] := rm_gFree hwB rfl
  subst hzB
  obtain ⟨s2, r3, cC, dC, hsC, hcC, h2, hr3⟩ := rm_cat_inv hr2
  obtain ⟨cCi, hcCi, h2i⟩ := rm_grp_inv h2
  have hzC : cCi = [] := rm_gFree h2i hM2
  subst hzC; subst hcCi
  obtain ⟨w2, r4, cD, dD, hsD, hcD, hwD, hr4⟩ := rm_cat_inv hr3
  have hzD : cD = [] := rm_gFree hwD rfl
  subst hzD
  obtain ⟨s3, r5, cE, dE, hsE, hcE, h3, hr5⟩ := rm_cat_inv hr4
  obtain ⟨cEi, hcEi, h3i⟩ := rm_grp_inv h3
  have hzE : cEi = [] := rm_gFree h3i hM3
  subst hzE; subst hcEi
  obtain ⟨w3, r6, cF, dF, hsF, hcF, hwF, hr6⟩ := rm_cat_inv hr5
  have hzF : cF = [] := rm_gFree hwF rfl
  subst hzF
  obtain ⟨s4, r7, cG, dG, hsG, hcG, h4, hr7⟩ := rm_cat_inv hr6
  obtain ⟨cGi, hcGi, h4i⟩ := rm_grp_inv h4
  have hzG : cGi = [] := rm_gFree h4i hM4
  subst hzG; subst hcGi
  obtain ⟨g5, r8, cH, dH, hsH, hcH, h5, hr8⟩ := rm_cat_inv hr7
  obtain ⟨cHi, hcHi, h5i⟩ := rm_grp_inv h5
  have hzH : cHi = [] := rm_gFree h5i hT
  subst hzH; subst hcHi
  obtain ⟨hrI, hcI⟩ := rm_emp_inv hr8
  subst hrI; subst hcI
  subst hcH; subst hcG; subst hcF; subst hcE; subst hcD; subst hcC
  subst hcB; subst hcA
  subst hsH; subst hsG; subst hsF; subst hsE; subst hsD; subst hsC
  subst hsB; subst hsA
  have hm : ((((((((([] : Caps) ++ ((5, g5) :: [])) ++ ((4, s4) :: [])) ++ [])
      ++ ((3, s3) :: [])) ++ []) ++ ((2, s2) :: [])) ++ [])
      ++ ((1, g1) :: []))
      = (5, g5) :: (4, s4) :: (3, s3) :: (2, s2) :: (1, g1) :: [] := by simp
  refine ⟨g1, w1, s2, w2, s3, w3, s4, g5, by simp, ?_, ?_, ?_, ?_, ?_, h3i⟩
  · rw [hm, getG_cons_miss (by decide) _ _, getG_cons_miss (by decide) _ _,
      getG_cons_miss (by decide) _ _, getG_cons_miss (by decide) _ _,
      getG_cons_hit]
  · rw [hm, getG_cons_miss (by decide) _ _, getG_cons_miss (by decide) _ _,
      getG_cons_miss (by decide) _ _, getG_cons_hit]
  · rw [hm, getG_cons_miss (by decide) _ _, getG_cons_miss (by decide) _ _,
      getG_cons_hit]
  · rw [hm, getG_cons_miss (by decide) _ _, getG_cons_hit]
  · rw [hm, getG_cons_hit]

/-- Shape of a match of
`[lazyPre 1 p, wsS, grp 2, wsS, grp 3, wsS, grp 4, wsS, grp 5]` (the dotted
compound-assignment rule). -/
theorem shape9 (p : Char → Bool) (M2 M3 M4 T : Re) (hM2 : M2.gFree = true)
    (hM3 : M3.gFree = true) (hM4 : M4.gFree = true) (hT : T.gFree = true)
    {s : List Char} {m : Caps}
    (h : (rCat [lazyPre 1 p, wsS, .grp 2 M2, wsS, .grp 3 M3, wsS, .grp 4 M4,
        wsS, .grp 5 T]).reMatch s = some m) :
    ∃ g1 w1 s2 w2 s3 w3 s4 w4 g5,
      s = g1 ++ (w1 ++ (s2 ++ (w2 ++ (s3 ++ (w3 ++ (s4 ++ (w4 ++ g5))))))) ∧
      getG m 1 = g1 ∧ getG m 2 = s2 ∧ getG m 3 = s3 ∧ getG m 4 = s4 ∧
      getG m 5 = g5 ∧ RM M2 s2 [] ∧ RM M3 s3 [] ∧ RM M4 s4 [] := by
  have hrm : RM (.cat (lazyPre 1 p) (.cat wsS (.cat (.grp 2 M2) (.cat wsS
      (.cat (.grp 3 M3) (.cat wsS (.cat (.grp 4 M4) (.cat wsS
        (.cat (.grp 5 T) .emp))))))))) s m := reMatch_sound h
  obtain ⟨g1, r1, cA, dA, hsA, hcA, h1, hr1⟩ := rm_cat_inv hrm
  obtain ⟨cAi, hcAi, h1i⟩ := rm_grp_inv h1
  have hzA : cAi = [] := rm_gFree h1i rfl
  subst hzA; subst hcAi
  obtain ⟨w1, r2, cB, dB, hsB, hcB, hwB, hr2⟩ := rm_cat_inv hr1
  have hzB : cB = [] := rm_gFree hwB rfl
  subst hzB
  obtain ⟨s2, r3, cC, dC, hsC, hcC, h2, hr3⟩ := rm_cat_inv hr2
  obtain ⟨cCi, hcCi, h2i⟩ := rm_grp_inv h2
  have hzC : cCi = [] := rm_gFree h2i hM2
  subst hzC; subst hcCi
  obtain ⟨w2, r4, cD, dD, hsD, hcD, hwD, hr4⟩ := rm_cat_inv hr3
  have hzD : cD = [] := rm_gFree hwD rfl
  subst hzD
  obtain ⟨s3, r5, cE, dE, hsE, hcE, h3, hr5⟩ := rm_cat_inv hr4
  obtain ⟨cEi, hcEi, h3i⟩ := rm_grp_inv h3
  have hzE : cEi = [] := rm_gFree h3i hM3
  subst hzE; subst hcEi
  obtain ⟨w3, r6, cF, dF, hsF, hcF, hwF, hr6⟩ := rm_cat_inv hr5
  have hzF : cF = [] := rm_gFree hwF rfl
  subst hzF
  obtain ⟨s4, r7, cG, dG, hsG, hcG, h4, hr7⟩ := rm_cat_inv hr6
  obtain ⟨cGi, hcGi, h4i⟩ := rm_grp_inv h4
  have hzG : cGi = [] := rm_gFree h4i hM4
  subst hzG; subst hcGi
  obtain ⟨w4, r8, cH, dH, hsH, hcH, hwH, hr8⟩ := rm_cat_inv hr7
  have hzH : cH = [] := rm_gFree hwH rfl
  subst hzH
  obtain ⟨g5, r9, cI, dI, hsI, hcI, h5, hr9⟩ := rm_cat_inv hr8
  obtain ⟨cIi, hcIi, h5i⟩ := rm_grp_inv h5
  have hzI : cIi = [] := rm_gFree h5i hT
  subst hzI; subst hcIi
  obtain ⟨hrJ, hcJ⟩ := rm_emp_inv hr9
  subst hrJ; subst hcJ
  subst hcI; subst hcH; subst hcG; subst hcF; subst hcE; subst hcD
  subst hcC; subst hcB; subst hcA
  subst hsI; subst hsH; subst hsG; subst hsF; subst hsE; subst hsD
  subst hsC; subst hsB; subst hsA
  have hm : (((((((((([] : Caps) ++ ((5, g5) :: [])) ++ []) ++ ((4, s4) :: []))
      ++ []) ++ ((3, s3) :: [])) ++ []) ++ ((2, s2) :: [])) ++ [])
      ++ ((1, g1) :: []))
      = (5, g5) :: (4, s4) :: (3, s3) :: (2, s2) :: (1, g1) :: [] := by simp
  refine ⟨g1, w1, s2, w2, s3, w3, s4, w4, g5, by simp, ?_, ?_, ?_, ?_, ?_,
    h2i, h3i, h4i⟩
  · rw [hm, getG_cons_miss (by decide) _ _, getG_cons_miss (by decide) _ _,
      getG_cons_miss (by decide) _ _, getG_cons_miss (by decide) _ _,
      getG_cons_hit]
  · rw [hm, getG_cons_miss (by decide) _ _, getG_cons_miss (by decide) _ _,
      getG_cons_miss (by decide) _ _, getG_cons_hit]
  · rw [hm, getG_cons_miss (by decide) _ _, getG_cons_miss (by decide) _ _,
      getG_cons_hit]
  · rw [hm, getG_cons_miss (by decide) _ _, getG_cons_hit]
  · rw [hm, getG_cons_hit]

end MatlabFmt

namespace MatlabFmt

/-- A character equal (by `==`) to a non-whitespace character is
non-whitespace. -/
theorem nonws_of_eqc {a : Char} (ha : isNonWs a = true) {x : Char}
    (hx : (x == a) = true) : isNonWs x = true := by
  rw [eq_of_beq hx]; exact ha

/-- Two-way variant for a class of the form `x == a || x == b`. -/
theorem nonws_of_eq2 {a b : Char} (ha : isNonWs a = true)
    (hb : isNonWs b = true) {x : Char} (hx : (x == a || x == b) = true) :
    isNonWs x = true := by
  have hx' : x = a ∨ x = b := by simpa using hx
  rcases hx' with rfl | rfl
  · exact ha
  · exact hb

/-- Membership in a class of non-whitespace characters. -/
theorem nonws_of_memC {l : List Char} (hall : l.all isNonWs = true) {x : Char}
    (hx : memC l x = true) : isNonWs x = true := by
  have hmem : x ∈ l := by simpa [memC] using hx
  exact List.all_eq_true.mp hall x hmem

/-- Decimal digits are non-whitespace. -/
theorem nonws_of_digit {x : Char} (h : x.isDigit = true) :
    isNonWs x = true := by
  simp only [isNonWs, isWs]
  simp only [Bool.not_eq_true', Bool.or_eq_false_iff, beq_eq_false_iff_ne]
  refine ⟨⟨⟨⟨?_, ?_⟩, ?_⟩, ?_⟩, ?_⟩ <;>
    (intro he; subst he; exact absurd h (by decide))

/-- A one-character class match contributes exactly one non-whitespace
character. -/
theorem rm_chP_mu {p : Char → Bool} {s : List Char} {c : Caps}
    (h : RM (.chP p) s c) (hp : ∀ x, p x = true → isNonWs x = true) :
    muNW s = 1 ∧ s.length = 1 := by
  obtain ⟨x, rfl, hx, -⟩ := rm_chP_inv h
  constructor
  · rw [muNW_cons_nonws (hp x hx) []]; rfl
  · rfl

/-- A match headed by a one-character non-whitespace class contributes at
least one non-whitespace character. -/
theorem rm_headP_mu {p : Char → Bool} {b : Re} {s : List Char} {c : Caps}
    (h : RM (.cat (.chP p) b) s c) (hp : ∀ x, p x = true → isNonWs x = true) :
    1 ≤ muNW s ∧ 1 ≤ s.length := by
  obtain ⟨s1, s2, c1, d2, rfl, -, h1, -⟩ := rm_cat_inv h
  obtain ⟨x, rfl, hx, -⟩ := rm_chP_inv h1
  constructor
  · rw [List.singleton_append, muNW_cons_nonws (hp x hx) s2]
    omega
  · rw [List.singleton_append, List.length_cons]
    omega

/-- A match of `\s\s\s*` is at least two characters long. -/
theorem rm_wsws_len {s : List Char} {c : Caps}
    (h : RM (.cat (.chP isWs) (.cat (.chP isWs) (.cat wsS .emp))) s c) :
    2 ≤ s.length := by
  obtain ⟨s1, s2, c1, d1, rfl, -, h1, h2⟩ := rm_cat_inv h
  obtain ⟨x, rfl, -, -⟩ := rm_chP_inv h1
  obtain ⟨s3, s4, c3, d3, rfl, -, h3, -⟩ := rm_cat_inv h2
  obtain ⟨y, rfl, -, -⟩ := rm_chP_inv h3
  simp [List.length_append]

/-- The blank-line pattern never matches the empty string. -/
theorem pBlank_ne_nil {s : List Char} (h : pBlank.test s = true) : s ≠ [] := by
  intro he
  subst he
  exact absurd h (by decide)

end MatlabFmt

namespace MatlabFmt

/-- Measure decrease for the shape-5 extraction rules: the left part is the
prefix group plus a whitespace separator, the right part a separator plus the
tail group, and the middle group holds a non-whitespace character. -/
theorem branch5 (p : Char → Bool) (M2 T : Re) (hf2 : M2.gFree = true)
    (hfT : T.gFree = true) {s l r : List Char} {m : Caps}
    (hhead : ∀ s2, RM M2 s2 [] → 1 ≤ muNW s2 ∧ 1 ≤ s2.length)
    (a b : List Char) (ham : muNW a = 0) (haL : a.length ≤ 1)
    (hbm : muNW b = 0) (hbL : b.length ≤ 1)
    (hm : (rCat [lazyPre 1 p, wsS, .grp 2 M2, wsS, .grp 3 T]).reMatch s
      = some m)
    (hl : getG m 1 ++ a = l) (hr : b ++ getG m 3 = r) :
    fmtMeasure l < fmtMeasure s ∧ fmtMeasure r < fmtMeasure s := by
  obtain ⟨g1, w1, s2, w2, g3, hdec, hg1, hg2, hg3, hM2, -⟩ :=
    shape5 p M2 T hf2 hfT hm
  obtain ⟨hmu2, hlen2⟩ := hhead s2 hM2
  subst hl; subst hr
  rw [hg1, hg3]
  have hmu : muNW s = muNW g1 + (muNW w1 + (muNW s2 + (muNW w2 + muNW g3))) := by
    rw [hdec, muNW_append, muNW_append, muNW_append, muNW_append]
  have hL : s.length =
      g1.length + (w1.length + (s2.length + (w2.length + g3.length))) := by
    rw [hdec]; simp [List.length_append]
  constructor
  · exact fmtMeasure_lt_of_mu (by rw [muNW_append]; omega)
      (by rw [List.length_append]; omega)
  · exact fmtMeasure_lt_of_mu (by rw [muNW_append]; omega)
      (by rw [List.length_append]; omega)

/-- Measure decrease for the shape-4 rules (strings, unary sign, closers). -/
theorem branch4 (p : Char → Bool) (M2 T : Re) (j : Nat) (hj1 : j ≠ 1)
    (hj2 : j ≠ 2) (hfT : T.gFree = true) (hI : ∀ n ∈ M2.gIdx, n ≠ 1)
    {s l r : List Char} {m : Caps}
    (hhead : ∀ s2 c2, RM M2 s2 c2 → 1 ≤ muNW s2 ∧ 1 ≤ s2.length)
    (hm : (rCat [lazyPre 1 p, wsS, .grp 2 M2, .grp j T]).reMatch s = some m)
    (hl : getG m 1 = l) (hr : getG m j = r) :
    fmtMeasure l < fmtMeasure s ∧ fmtMeasure r < fmtMeasure s := by
  obtain ⟨g1, w, s2, g3, c2, hdec, hg1, hg2, hgj, hM2, -⟩ :=
    shape4 p M2 T j hj1 hj2 hfT hI hm
  obtain ⟨hmu2, hlen2⟩ := hhead s2 c2 hM2
  subst hl; subst hr
  rw [hg1, hgj]
  have hmu : muNW s = muNW g1 + (muNW w + (muNW s2 + muNW g3)) := by
    rw [hdec, muNW_append, muNW_append, muNW_append]
  have hL : s.length = g1.length + (w.length + (s2.length + g3.length)) := by
    rw [hdec]; simp [List.length_append]
  exact ⟨fmtMeasure_lt_of_mu (by omega) (by omega),
    fmtMeasure_lt_of_mu (by omega) (by omega)⟩

/-- Measure decrease for the shape-4b rules (call and opener). -/
theorem branch4b (A M2 T : Re) (hfA : A.gFree = true) (hf2 : M2.gFree = true)
    (hfT : T.gFree = true) {s l r : List Char} {m : Caps}
    (hhead : ∀ s2, RM M2 s2 [] → 1 ≤ muNW s2 ∧ 1 ≤ s2.length)
    (hm : (rCat [.grp 1 A, .grp 2 M2, wsS, .grp 3 T]).reMatch s = some m)
    (hl : getG m 1 = l) (hr : getG m 3 = r) :
    fmtMeasure l < fmtMeasure s ∧ fmtMeasure r < fmtMeasure s := by
  obtain ⟨g1, s2, w, g3, hdec, hg1, hg2, hg3, hM2, -⟩ :=
    shape4b A M2 T hfA hf2 hfT hm
  obtain ⟨hmu2, hlen2⟩ := hhead s2 hM2
  subst hl; subst hr
  rw [hg1, hg3]
  have hmu : muNW s = muNW g1 + (muNW s2 + (muNW w + muNW g3)) := by
    rw [hdec, muNW_append, muNW_append, muNW_append]
  have hL : s.length = g1.length + (s2.length + (w.length + g3.length)) := by
    rw [hdec]; simp [List.length_append]
  exact ⟨fmtMeasure_lt_of_mu (by omega) (by omega),
    fmtMeasure_lt_of_mu (by omega) (by omega)⟩

/-- Measure decrease for the shape-7 rules (increment, dotted power, combined
operators). -/
theorem branch7 (p : Char → Bool) (M2 M3 T : Re) (hf2 : M2.gFree = true)
    (hf3 : M3.gFree = true) (hfT : T.gFree = true) {s l r : List Char}
    {m : Caps} (hhead : ∀ s2, RM M2 s2 [] → 1 ≤ muNW s2 ∧ 1 ≤ s2.length)
    (a b : List Char) (ham : muNW a = 0) (haL : a.length ≤ 1)
    (hbm : muNW b = 0) (hbL : b.length ≤ 1)
    (hm : (rCat [lazyPre 1 p, wsS, .grp 2 M2, wsS, .grp 3 M3, wsS,
      .grp 4 T]).reMatch s = some m)
    (hl : getG m 1 ++ a = l) (hr : b ++ getG m 4 = r) :
    fmtMeasure l < fmtMeasure s ∧ fmtMeasure r < fmtMeasure s := by
  obtain ⟨g1, w1, s2, w2, s3, w3, g4, hdec, hg1, hg2, hg3, hg4, hM2, -, -⟩ :=
    shape7 p M2 M3 T hf2 hf3 hfT hm
  obtain ⟨hmu2, hlen2⟩ := hhead s2 hM2
  subst hl; subst hr
  rw [hg1, hg4]
  have hmu : muNW s = muNW g1 + (muNW w1 + (muNW s2 + (muNW w2 +
      (muNW s3 + (muNW w3 + muNW g4))))) := by
    rw [hdec, muNW_append, muNW_append, muNW_append, muNW_append,
      muNW_append, muNW_append]
  have hL : s.length = g1.length + (w1.length + (s2.length + (w2.length +
      (s3.length + (w3.length + g4.length))))) := by
    rw [hdec]; simp [List.length_append]
  constructor
  · exact fmtMeasure_lt_of_mu (by rw [muNW_append]; omega)
      (by rw [List.length_append]; omega)
  · exact fmtMeasure_lt_of_mu (by rw [muNW_append]; omega)
      (by rw [List.length_append]; omega)

/-- Measure decrease for the shape-9 rule (dotted compound assignment). -/
theorem branch9 (p : Char → Bool) (M2 M3 M4 T : Re) (hf2 : M2.gFree = true)
    (hf3 : M3.gFree = true) (hf4 : M4.gFree = true) (hfT : T.gFree = true)
    {s l r : List Char} {m : Caps}
    (hhead : ∀ s2, RM M2 s2 [] → 1 ≤ muNW s2 ∧ 1 ≤ s2.length)
    (a b : List Char) (ham : muNW a = 0) (haL : a.length ≤ 1)
    (hbm : muNW b = 0) (hbL : b.length ≤ 1)
    (hm : (rCat [lazyPre 1 p, wsS, .grp 2 M2, wsS, .grp 3 M3, wsS, .grp 4 M4,
      wsS, .grp 5 T]).reMatch s = some m)
    (hl : getG m 1 ++ a = l) (hr : b ++ getG m 5 = r) :
    fmtMeasure l < fmtMeasure s ∧ fmtMeasure r < fmtMeasure s := by
  obtain ⟨g1, w1, s2, w2, s3, w3, s4, w4, g5, hdec, hg1, hg2, hg3, hg4, hg5,
    hM2, -, -⟩ := shape9 p M2 M3 M4 T hf2 hf3 hf4 hfT hm
  obtain ⟨hmu2, hlen2⟩ := hhead s2 hM2
  subst hl; subst hr
  rw [hg1, hg5]
  have hmu : muNW s = muNW g1 + (muNW w1 + (muNW s2 + (muNW w2 + (muNW s3 +
      (muNW w3 + (muNW s4 + (muNW w4 + muNW g5))))))) := by
    rw [hdec, muNW_append, muNW_append, muNW_append, muNW_append,
      muNW_append, muNW_append, muNW_append, muNW_append]
  have hL : s.length = g1.length + (w1.length + (s2.length + (w2.length +
      (s3.length + (w3.length + (s4.length + (w4.length + g5.length))))))) := by
    rw [hdec]; simp [List.length_append]
  constructor
  · exact fmtMeasure_lt_of_mu (by rw [muNW_append]; omega)
      (by rw [List.length_append]; omega)
  · exact fmtMeasure_lt_of_mu (by rw [muNW_append]; omega)
      (by rw [List.length_append]; omega)

/-- Measure decrease for the shape-6 rule (scientific notation). -/
theorem branch6 (p : Char → Bool) (M2 M3 M4 T : Re) (hf2 : M2.gFree = true)
    (hf3 : M3.gFree = true) (hf4 : M4.gFree = true) (hfT : T.gFree = true)
    {s l r : List Char} {m : Caps}
    (hhead : ∀ s3, RM M3 s3 [] → 1 ≤ muNW s3)
    (hm : (rCat [lazyPre 1 p, wsS, .grp 2 M2, .grp 3 M3, .grp 4 M4,
      .grp 5 T]).reMatch s = some m)
    (hl : getG m 1 ++ getG m 2 = l) (hr : getG m 4 ++ getG m 5 = r) :
    fmtMeasure l < fmtMeasure s ∧ fmtMeasure r < fmtMeasure s := by
  obtain ⟨g1, w, s2, s3, s4, g5, hdec, hg1, hg2, hg3, hg4, hg5, hM3⟩ :=
    shape6 p M2 M3 M4 T hf2 hf3 hf4 hfT hm
  have hmu3 := hhead s3 hM3
  subst hl; subst hr
  rw [hg1, hg2, hg4, hg5]
  have hmu : muNW s = muNW g1 + (muNW w + (muNW s2 + (muNW s3 +
      (muNW s4 + muNW g5)))) := by
    rw [hdec, muNW_append, muNW_append, muNW_append, muNW_append, muNW_append]
  have hL : s.length = g1.length + (w.length + (s2.length + (s3.length +
      (s4.length + g5.length)))) := by
    rw [hdec]; simp [List.length_append]
  constructor
  · exact fmtMeasure_lt_of_mu (by rw [muNW_append]; omega)
      (by rw [List.length_append]; omega)
  · exact fmtMeasure_lt_of_mu (by rw [muNW_append]; omega)
      (by rw [List.length_append]; omega)

/-- Measure decrease for the shape-8 rule (rational). -/
theorem branch8 (p : Char → Bool) (M2 M3 M4 T : Re) (hf2 : M2.gFree = true)
    (hf3 : M3.gFree = true) (hf4 : M4.gFree = true) (hfT : T.gFree = true)
    {s l r : List Char} {m : Caps}
    (hhead : ∀ s3, RM M3 s3 [] → 1 ≤ muNW s3)
    (hm : (rCat [lazyPre 1 p, wsS, .grp 2 M2, wsS, .grp 3 M3, wsS, .grp 4 M4,
      .grp 5 T]).reMatch s = some m)
    (hl : getG m 1 ++ getG m 2 = l) (hr : getG m 4 ++ getG m 5 = r) :
    fmtMeasure l < fmtMeasure s ∧ fmtMeasure r < fmtMeasure s := by
  obtain ⟨g1, w1, s2, w2, s3, w3, s4, g5, hdec, hg1, hg2, hg3, hg4, hg5,
    hM3⟩ := shape8 p M2 M3 M4 T hf2 hf3 hf4 hfT hm
  have hmu3 := hhead s3 hM3
  subst hl; subst hr
  rw [hg1, hg2, hg4, hg5]
  have hmu : muNW s = muNW g1 + (muNW w1 + (muNW s2 + (muNW w2 + (muNW s3 +
      (muNW w3 + (muNW s4 + muNW g5)))))) := by
    rw [hdec, muNW_append, muNW_append, muNW_append, muNW_append,
      muNW_append, muNW_append, muNW_append]
  have hL : s.length = g1.length + (w1.length + (s2.length + (w2.length +
      (s3.length + (w3.length + (s4.length + g5.length)))))) := by
    rw [hdec]; simp [List.length_append]
  constructor
  · exact fmtMeasure_lt_of_mu (by rw [muNW_append]; omega)
      (by rw [List.length_append]; omega)
  · exact fmtMeasure_lt_of_mu (by rw [muNW_append]; omega)
      (by rw [List.length_append]; omega)

/-- Measure decrease for the multi-space rule: both sides keep at most the
non-whitespace of the whole and are at least two characters shorter. -/
theorem branchMWS {s l r : List Char} {m : Caps}
    (hm : pMultiWS.reMatch s = some m)
    (hl : getG m 1 = l) (hr : getG m 3 = r) :
    fmtMeasure l < fmtMeasure s ∧ fmtMeasure r < fmtMeasure s := by
  obtain ⟨g1, s2, g3, hdec, hg1, hg2, hg3, hM2, -⟩ :=
    shape3m isNonWs (rCat [.chP isWs, .chP isWs, wsS])
      (.alt (.cat (.chP isNonWs) dotS) .emp) rfl rfl hm
  have hlen2 : 2 ≤ s2.length := rm_wsws_len hM2
  subst hl; subst hr
  rw [hg1, hg3]
  have hmu : muNW s = muNW g1 + (muNW s2 + muNW g3) := by
    rw [hdec, muNW_append, muNW_append]
  have hL : s.length = g1.length + (s2.length + g3.length) := by
    rw [hdec]; simp [List.length_append]
  exact ⟨fmtMeasure_lt_of_len (by omega) (by omega),
    fmtMeasure_lt_of_len (by omega) (by omega)⟩

end MatlabFmt

namespace MatlabFmt

/-- Measure decrease for the comment rule. -/
theorem branchCmt {s l r : List Char} {m : Caps}
    (hm : pComment.reMatch s = some m)
    (hl : getG m 1 ++ [' '] = l) (hr : ([] : List Char) = r) :
    fmtMeasure l < fmtMeasure s ∧ fmtMeasure r < fmtMeasure s := by
  obtain ⟨g1, w, s2, hdec, hg1, hg2, hM2⟩ :=
    shape3c (.alt (.cat dotS (.chP isNonWs)) .emp)
      (.cat (.chP (fun c => c == '%')) dotS) rfl rfl hm
  obtain ⟨hmu2, hlen2⟩ :=
    rm_headP_mu hM2 (fun x hx => nonws_of_eqc (by decide) hx)
  subst hl; subst hr
  rw [hg1]
  have hmu : muNW s = muNW g1 + (muNW w + muNW s2) := by
    rw [hdec, muNW_append, muNW_append]
  have hL : s.length = g1.length + (w.length + s2.length) := by
    rw [hdec]; simp [List.length_append]
  have hsp : muNW [' '] = 0 := by decide
  constructor
  · exact fmtMeasure_lt_of_mu (by rw [muNW_append]; omega)
      (by rw [List.length_append]; simp; omega)
  · exact fmtMeasure_lt_of_len (by simp [muNW]) (by simp; omega)

/-- Measure decrease for a quoted-string extraction (either style). -/
theorem branchStr (p : Char → Bool) (M2 T : Re) (hfT : T.gFree = true)
    (hI : ∀ n ∈ M2.gIdx, n ≠ 1)
    {s l r : List Char} {m : Caps}
    (hhead : ∀ s2 c2, RM M2 s2 c2 → 1 ≤ muNW s2 ∧ 1 ≤ s2.length)
    (hm : (rCat [lazyPre 1 p, wsS, .grp 2 M2, .grp 4 T]).reMatch s = some m)
    (hl : getG m 1 = l) (hr : getG m 4 = r) :
    fmtMeasure l < fmtMeasure s ∧ fmtMeasure r < fmtMeasure s :=
  branch4 p M2 T 4 (by decide) (by decide) hfT hI hhead hm hl hr

/-- Measure decrease for `extractStringOrComment`: both returned context parts
measure strictly below the input. -/
theorem escProg {s l mid r : List Char}
    (h : extractStringOrComment s = some (l, mid, r)) :
    fmtMeasure l < fmtMeasure s ∧ fmtMeasure r < fmtMeasure s := by
  have hheadSQ : ∀ s2 c2,
      RM (rCat [.chP (fun c => c == '\'')
        , .cat (.grp 3 (.alt (.chP (fun c => c != '\''))
            (.cat (.chP (fun c => c == '\'')) (.chP (fun c => c == '\'')))))
            (.starG (.grp 3 (.alt (.chP (fun c => c != '\''))
              (.cat (.chP (fun c => c == '\'')) (.chP (fun c => c == '\''))))))
        , .chP (fun c => c == '\'')]) s2 c2 → 1 ≤ muNW s2 ∧ 1 ≤ s2.length :=
    fun s2 c2 hM => rm_headP_mu hM (fun x hx => nonws_of_eqc (by decide) hx)
  have hheadDQ : ∀ s2 c2,
      RM (rCat [.chP (fun c => c == '"')
        , .starG (.grp 3 (.chP (fun c => c != '"')))
        , .chP (fun c => c == '"')]) s2 c2 → 1 ≤ muNW s2 ∧ 1 ≤ s2.length :=
    fun s2 c2 hM => rm_headP_mu hM (fun x hx => nonws_of_eqc (by decide) hx)
  unfold extractStringOrComment at h
  rcases h0 : pString.reMatch s with _ | c0 <;>
    rcases h2 : pStringDQ.reMatch s with _ | c2 <;>
    simp only [h0, h2] at h
  · -- neither string pattern: comment branch
    rcases hc : pComment.reMatch s with _ | cc <;> simp only [hc] at h
    · exact Option.noConfusion h
    · simp only [Option.some.injEq, Prod.mk.injEq] at h
      obtain ⟨hl, -, hr⟩ := h
      exact branchCmt hc hl hr
  · -- only the double-quote pattern matches
    simp only [Option.some.injEq, Prod.mk.injEq] at h
    obtain ⟨hl, -, hr⟩ := h
    exact branchStr _ _ _ (by rfl) (by decide) hheadDQ h2 hl hr
  · -- only the single-quote pattern matches
    simp only [Option.some.injEq, Prod.mk.injEq] at h
    obtain ⟨hl, -, hr⟩ := h
    exact branchStr _ _ _ (by rfl) (by decide) hheadSQ h0 hl hr
  · -- both match: the longer string group is selected
    by_cases hlt : (getG c0 2).length < (getG c2 2).length
    · rw [if_pos hlt] at h
      simp only [Option.some.injEq, Prod.mk.injEq] at h
      obtain ⟨hl, -, hr⟩ := h
      exact branchStr _ _ _ (by rfl) (by decide) hheadDQ h2 hl hr
    · rw [if_neg hlt] at h
      simp only [Option.some.injEq, Prod.mk.injEq] at h
      obtain ⟨hl, -, hr⟩ := h
      exact branchStr _ _ _ (by rfl) (by decide) hheadSQ h0 hl hr

end MatlabFmt

namespace MatlabFmt

/-- Head-character fact for a bare one-character middle group. -/
theorem chP_head {p : Char → Bool} (hp : ∀ x, p x = true → isNonWs x = true) :
    ∀ s2, RM (.chP p) s2 [] → 1 ≤ muNW s2 ∧ 1 ≤ s2.length := by
  intro s2 hM
  obtain ⟨h1, h2⟩ := rm_chP_mu hM hp
  omega

/-- Head-character fact for a bare one-character middle group, capture-list
general form. -/
theorem chP_headC {p : Char → Bool}
    (hp : ∀ x, p x = true → isNonWs x = true) :
    ∀ s2 c2, RM (.chP p) s2 c2 → 1 ≤ muNW s2 ∧ 1 ≤ s2.length := by
  intro s2 c2 hM
  obtain ⟨h1, h2⟩ := rm_chP_mu hM hp
  omega

/-- Head-character fact for a concatenation-headed middle group. -/
theorem catP_head {p : Char → Bool} {b : Re}
    (hp : ∀ x, p x = true → isNonWs x = true) :
    ∀ s2, RM (.cat (.chP p) b) s2 [] → 1 ≤ muNW s2 ∧ 1 ≤ s2.length :=
  fun _ hM => rm_headP_mu hM hp

/-- Measure decrease for `extract`: every successful extraction returns
context parts that measure strictly below the input. -/
theorem extractProg (cfg : Cfg) {s l mid r : List Char}
    (h : extract cfg s = some (l, mid, r)) :
    fmtMeasure l < fmtMeasure s ∧ fmtMeasure r < fmtMeasure s := by
  have hs0m : muNW (if 0 < cfg.operatorSep then [' '] else []) = 0 := by
    split <;> decide
  have hs0L : (if 0 < cfg.operatorSep then ([' '] : List Char) else []).length
      ≤ 1 := by split <;> decide
  have hs1m : muNW (if 1 < cfg.operatorSep then [' '] else []) = 0 := by
    split <;> decide
  have hs1L : (if 1 < cfg.operatorSep then ([' '] : List Char) else []).length
      ≤ 1 := by split <;> decide
  simp only [extract] at h
  by_cases hb : pBlank.test s = true
  · rw [if_pos hb] at h
    simp only [Option.some.injEq, Prod.mk.injEq] at h
    obtain ⟨hl, -, hr⟩ := h
    subst hl; subst hr
    have hpos : 0 < s.length := List.length_pos.mpr (pBlank_ne_nil hb)
    exact ⟨fmtMeasure_lt_of_len (Nat.zero_le _) hpos,
      fmtMeasure_lt_of_len (Nat.zero_le _) hpos⟩
  · rw [if_neg hb] at h
    rcases hesc : extractStringOrComment s with _ | trip <;>
      simp only [hesc] at h
    · rcases h1 : pNumSci.reMatch s with _ | m1 <;> simp only [h1] at h
      · rcases h2 : pNumRational.reMatch s with _ | m2 <;>
          simp only [h2] at h
        · rcases h3 : pIncrement.reMatch s with _ | m3 <;>
            simp only [h3] at h
          · rcases h4 : pSign.reMatch s with _ | m4 <;> simp only [h4] at h
            · rcases h5 : pColon.reMatch s with _ | m5 <;>
                simp only [h5] at h
              · rcases h6 : pOpDot.reMatch s with _ | m6 <;>
                  simp only [h6] at h
                · rcases h7 : pPowDot.reMatch s with _ | m7 <;>
                    simp only [h7] at h
                  · rcases h8 : pPow.reMatch s with _ | m8 <;>
                      simp only [h8] at h
                    · rcases h9 : pOpComb.reMatch s with _ | m9 <;>
                        simp only [h9] at h
                      · rcases h10 : pNot.reMatch s with _ | m10 <;>
                          simp only [h10] at h
                        · rcases h11 : pOp.reMatch s with _ | m11 <;>
                            simp only [h11] at h
                          · rcases h12 : pFunc.reMatch s with _ | m12 <;>
                              simp only [h12] at h
                            · rcases h13 : pOpen.reMatch s with _ | m13 <;>
                                simp only [h13] at h
                              · rcases h14 : pClose.reMatch s with _ | m14 <;>
                                  simp only [h14] at h
                                · rcases h15 : pComma.reMatch s with _ | m15 <;>
                                    simp only [h15] at h
                                  · rcases h16 : pEllipsis.reMatch s
                                        with _ | m16 <;> simp only [h16] at h
                                    · rcases h17 : pMultiWS.reMatch s
                                          with _ | m17 <;> simp only [h17] at h
                                      · exact Option.noConfusion h
                                      · simp only [Option.some.injEq,
                                          Prod.mk.injEq] at h
                                        obtain ⟨hl, -, hr⟩ := h
                                        exact branchMWS h17 hl hr
                                    · simp only [Option.some.injEq,
                                        Prod.mk.injEq] at h
                                      obtain ⟨hl, -, hr⟩ := h
                                      exact branch5 isNonWs (lit "...".data)
                                        (.alt (.cat (.chP isNonWs) dotS) .emp)
                                        (by rfl) (by rfl)
                                        (catP_head (fun x hx =>
                                          nonws_of_eqc (by decide) hx))
                                        [' '] [' '] (by decide) (by decide)
                                        (by decide) (by decide) h16 hl hr
                                  · simp only [Option.some.injEq,
                                      Prod.mk.injEq] at h
                                    obtain ⟨hl, -, hr⟩ := h
                                    exact branch5 isNonWs
                                      (.chP (fun c => c == ',' || c == ';'))
                                      (.alt (.cat (.chP isNonWs) dotS) .emp)
                                      (by rfl) (by rfl)
                                      (chP_head (fun x hx =>
                                        nonws_of_eq2 (by decide) (by decide) hx))
                                      [] [' '] (by decide) (by decide)
                                      (by decide) (by decide) h15
                                      (by simpa using hl) hr
                                · simp only [Option.some.injEq,
                                    Prod.mk.injEq] at h
                                  obtain ⟨hl, -, hr⟩ := h
                                  exact branch4 isNonWs
                                    (.chP (memC [')', ']', '\x7d']))
                                    (.alt dotS .emp) 3 (by decide) (by decide)
                                    (by rfl) (by decide)
                                    (chP_headC (fun x hx =>
                                      nonws_of_memC (by decide) hx))
                                    h14 hl hr
                              · simp only [Option.some.injEq,
                                  Prod.mk.injEq] at h
                                obtain ⟨hl, -, hr⟩ := h
                                exact branch4b dotLz
                                  (.chP (memC ['(', '[', '\x7b']))
                                  (.alt (.cat (.chP isNonWs) dotS) .emp)
                                  (by rfl) (by rfl) (by rfl)
                                  (chP_head (fun x hx =>
                                    nonws_of_memC (by decide) hx))
                                  h13 hl hr
                            · simp only [Option.some.injEq,
                                Prod.mk.injEq] at h
                              obtain ⟨hl, -, hr⟩ := h
                              exact branch4b (.cat dotLz (.chP isWordC))
                                (.chP (fun c => c == '('))
                                (.alt (.cat (.chP isNonWs) dotS) .emp)
                                (by rfl) (by rfl) (by rfl)
                                (chP_head (fun x hx =>
                                  nonws_of_eqc (by decide) hx))
                                h12 hl hr
                          · simp only [Option.some.injEq, Prod.mk.injEq] at h
                            obtain ⟨hl, -, hr⟩ := h
                            exact branch5 isNonWs
                              (.chP (memC ['+', '-', '*', '\\', '/', '=', '!',
                                '~', '<', '>', '|', '&']))
                              (.alt (.cat (.chP isNonWs) dotS) .emp)
                              (by rfl) (by rfl)
                              (chP_head (fun x hx =>
                                nonws_of_memC (by decide) hx))
                              (if 0 < cfg.operatorSep then [' '] else [])
                              (if 0 < cfg.operatorSep then [' '] else [])
                              hs0m hs0L hs0m hs0L h11 hl hr
                        · simp only [Option.some.injEq, Prod.mk.injEq] at h
                          obtain ⟨hl, -, hr⟩ := h
                          exact branch5 isNonWs
                            (.chP (fun c => c == '!' || c == '~'))
                            (.alt (.cat (.chP isNonWs) dotS) .emp)
                            (by rfl) (by rfl)
                            (chP_head (fun x hx =>
                              nonws_of_eq2 (by decide) (by decide) hx))
                            [' '] [] (by decide) (by decide)
                            (by decide) (by decide) h10 hl hr
                      · simp only [Option.some.injEq, Prod.mk.injEq] at h
                        obtain ⟨hl, -, hr⟩ := h
                        exact branch7 isNonWs
                          (.chP (memC ['.', '+', '-', '*', '\\', '/', '=',
                            '<', '>', '|', '&', '!', '~', '^']))
                          (.chP (memC ['<', '>', '=', '+', '-', '*', '/',
                            '&', '|']))
                          (.alt (.cat (.chP isNonWs) dotS) .emp)
                          (by rfl) (by rfl) (by rfl)
                          (chP_head (fun x hx =>
                            nonws_of_memC (by decide) hx))
                          (if 0 < cfg.operatorSep then [' '] else [])
                          (if 0 < cfg.operatorSep then [' '] else [])
                          hs0m hs0L hs0m hs0L h9 hl hr
                    · simp only [Option.some.injEq, Prod.mk.injEq] at h
                      obtain ⟨hl, -, hr⟩ := h
                      exact branch5 isNonWs (.chP (fun c => c == '^'))
                        (.alt (.cat (.chP isNonWs) dotS) .emp)
                        (by rfl) (by rfl)
                        (chP_head (fun x hx => nonws_of_eqc (by decide) hx))
                        (if 1 < cfg.operatorSep then [' '] else [])
                        (if 1 < cfg.operatorSep then [' '] else [])
                        hs1m hs1L hs1m hs1L h8 hl hr
                  · simp only [Option.some.injEq, Prod.mk.injEq] at h
                    obtain ⟨hl, -, hr⟩ := h
                    exact branch7 isNonWs (.chP (fun c => c == '.'))
                      (.chP (fun c => c == '^'))
                      (.alt (.cat (.chP isNonWs) dotS) .emp)
                      (by rfl) (by rfl) (by rfl)
                      (chP_head (fun x hx => nonws_of_eqc (by decide) hx))
                      (if 1 < cfg.operatorSep then [' '] else [])
                      (if 1 < cfg.operatorSep then [' '] else [])
                      hs1m hs1L hs1m hs1L h7 hl hr
                · simp only [Option.some.injEq, Prod.mk.injEq] at h
                  obtain ⟨hl, -, hr⟩ := h
                  exact branch9 isNonWs (.chP (fun c => c == '.'))
                    (.chP (memC ['+', '-', '*', '/', '^']))
                    (.chP (fun c => c == '='))
                    (.alt (.cat (.chP isNonWs) dotS) .emp)
                    (by rfl) (by rfl) (by rfl) (by rfl)
                    (chP_head (fun x hx => nonws_of_eqc (by decide) hx))
                    (if 0 < cfg.operatorSep then [' '] else [])
                    (if 0 < cfg.operatorSep then [' '] else [])
                    hs0m hs0L hs0m hs0L h6 hl hr
              · simp only [Option.some.injEq, Prod.mk.injEq] at h
                obtain ⟨hl, -, hr⟩ := h
                exact branch5 isNonWs (.chP (fun c => c == ':'))
                  (.alt (.cat (.chP isNonWs) dotS) .emp) (by rfl) (by rfl)
                  (chP_head (fun x hx => nonws_of_eqc (by decide) hx))
                  [] [] (by decide) (by decide) (by decide) (by decide)
                  h5 (by simpa using hl) hr
            · simp only [Option.some.injEq, Prod.mk.injEq] at h
              obtain ⟨hl, -, hr⟩ := h
              exact branch4 signDelim (.chP signC)
                (.cat (.chP isWordC) dotS) 3 (by decide) (by decide)
                (by rfl) (by decide)
                (chP_headC (fun x hx =>
                  nonws_of_eq2 (by decide) (by decide) hx))
                h4 hl hr
          · simp only [Option.some.injEq, Prod.mk.injEq] at h
            obtain ⟨hl, -, hr⟩ := h
            exact branch7 isNonWs (.chP signC) (.chP signC)
              (.alt (.cat (.chP (memC [')', ']', '\x7d', ',', ';'])) dotS)
                .emp)
              (by rfl) (by rfl) (by rfl)
              (chP_head (fun x hx =>
                nonws_of_eq2 (by decide) (by decide) hx))
              [] [] (by decide) (by decide) (by decide) (by decide)
              h3 (by simpa using hl) hr
        · simp only [Option.some.injEq, Prod.mk.injEq] at h
          obtain ⟨hl, -, hr⟩ := h
          exact branch8 isNonWord digP (.chP (fun c => c == '/')) digP dotS
            (by rfl) (by rfl) (by rfl) (by rfl)
            (fun s3 hM => (chP_head (fun x hx =>
              nonws_of_eqc (by decide) hx) s3 hM).1)
            h2 hl hr
      · simp only [Option.some.injEq, Prod.mk.injEq] at h
        obtain ⟨hl, -, hr⟩ := h
        exact branch6 isNonWord
          (rCat [digP, .optG (.chP (fun c => c == '.')), digS])
          (.cat (.chP (fun c => c == 'e' || c == 'E'))
            (.optG (.chP (fun c => c == '+' || c == '-'))))
          digP dotS (by rfl) (by rfl) (by rfl) (by rfl)
          (fun s3 hM => (catP_head (fun x hx =>
            nonws_of_eq2 (by decide) (by decide) hx) s3 hM).1)
          h1 hl hr
    · obtain rfl := Option.some.inj h
      exact escProg hesc

end MatlabFmt

namespace MatlabFmt

/-- The fuelled normalizer is independent of the fuel once it dominates the
measure: the recursion bottoms out. -/
theorem formatF_congr (cfg : Cfg) :
    ∀ (N : Nat) (s : List Char) (n n' : Nat), fmtMeasure s < n →
      fmtMeasure s < n' → fmtMeasure s ≤ N →
      formatF cfg n s = formatF cfg n' s := by
  intro N
  induction N with
  | zero =>
    intro s n n' h1 h2 hN
    obtain ⟨k, rfl⟩ : ∃ k, n = k + 1 := ⟨n - 1, by omega⟩
    obtain ⟨k', rfl⟩ : ∃ k', n' = k' + 1 := ⟨n' - 1, by omega⟩
    simp only [formatF]
    rcases hE : extract cfg s with _ | ⟨a, b, c⟩ <;> simp only [hE]
    have := (extractProg cfg hE).1
    omega
  | succ N ih =>
    intro s n n' h1 h2 hN
    obtain ⟨k, rfl⟩ : ∃ k, n = k + 1 := ⟨n - 1, by omega⟩
    obtain ⟨k', rfl⟩ : ∃ k', n' = k' + 1 := ⟨n' - 1, by omega⟩
    simp only [formatF]
    rcases hE : extract cfg s with _ | ⟨a, b, c⟩ <;> simp only [hE]
    obtain ⟨hl, hr⟩ := extractProg cfg hE
    rw [ih a k k' (by omega) (by omega) (by omega),
      ih c k k' (by omega) (by omega) (by omega)]

/-- C9: Termination of the normalizer.  Every successful run of the token
extractor strictly decreases the combined (non-whitespace count, length)
measure `fmtMeasure` on both returned context parts — in particular no rule
can match and return an unchanged remainder — and consequently the fuelled
recursion `formatF` is stable from the fuel `fmtFuel` used by `format`
upward: the recursive normalizer bottoms out on every input, so a formatting
run over any finite line sequence terminates. -/
theorem normalizer_termination :
    (∀ (cfg : Cfg) (s l mid r : List Char),
        extract cfg s = some (l, mid, r) →
        l ≠ s ∧ r ≠ s ∧
        fmtMeasure l < fmtMeasure s ∧ fmtMeasure r < fmtMeasure s) ∧
    (∀ (cfg : Cfg) (s : List Char) (n : Nat), fmtFuel s ≤ n →
        formatF cfg n s = format cfg s) := by
  constructor
  · intro cfg s l mid r h
    obtain ⟨hl, hr⟩ := extractProg cfg h
    refine ⟨?_, ?_, hl, hr⟩
    · intro he; rw [he] at hl; exact absurd hl (lt_irrefl _)
    · intro he; rw [he] at hr; exact absurd hr (lt_irrefl _)
  · intro cfg s n hn
    unfold format
    have hf := fmtMeasure_lt_fuel s
    exact formatF_congr cfg (fmtMeasure s) s n (fmtFuel s) (by omega) hf
      (le_refl _)

/-- Witness for C9 at the concrete input `"x=1"`: the operator rule splits it
into a strictly smaller left context and remainder, and the normalizer's
value is fuel-independent. -/
theorem normalizer_termination_wit :
    ("x ".data ≠ "x=1".data ∧
      fmtMeasure "x ".data < fmtMeasure "x=1".data) ∧
    formatF cfgD 99 "x=1".data = format cfgD "x=1".data := by
  have h := normalizer_termination
  refine ⟨?_, h.2 cfgD "x=1".data 99 (by decide)⟩
  have h1 := h.1 cfgD "x=1".data "x ".data "=".data " 1".data (by rfl)
  exact ⟨h1.1, h1.2.2.1⟩

end MatlabFmt
